import Mathlib

/-!
# SlopJS dispatch engine — a shallow embedding

This file embeds the core of the SlopJS web framework (`src/index.ts`,
class `Slop`): the path matcher `matchPath`, the registry
(`routes` / `middleware` / `errorHandlers`), sub-router mounting
(`useRouter`), and the request dispatcher `handleRequest` with its inner
continuation `next`.

Modelling choices:

* Paths, methods and bodies are `String`s; `HttpBody` is nullable, so a
  response body is `Option String` (`none` = JavaScript `null`).
* JavaScript string primitives used by the source (`split("/")`,
  `startsWith`, `substring(1)`) are re-implemented structurally on
  `List Char` so that concrete runs reduce inside the kernel.
* A handler is a small program (`HProg`): it can set the body
  (`res.send`, possibly to `null`), set the status (`res.status`), set a
  header, invoke the continuation `next` (optionally with an error), or
  throw.  This covers the operations of the `SlopResponse` object that
  the dispatch loop observes.  `req.params` is the only request field the
  engine itself mutates, so it is carried in the dispatch state.
* The dispatcher is given a fuel bound consumed at each `next`
  invocation; `none` at top level means the fuel ran out (the real code
  would still be recursing).  The interpreter is structurally recursive,
  so it evaluates by `rfl` / `decide`.
* The run records a trace of instrumentation events: which middleware /
  route handlers / error handlers were invoked, which route matched with
  which parameters, and each error signal.
-/

/-- Does `s` start with the pattern list `p`? (`chStarts p s`). -/
def chStarts : List Char → List Char → Bool
  | [], _ => true
  | _ :: _, [] => false
  | p :: ps, c :: cs => p == c && chStarts ps cs

/-- JavaScript `s.startsWith(pat)`. -/
def strStarts (s pat : String) : Bool := chStarts pat.toList s.toList

/-- JavaScript `s.substring(1)`. -/
def strTail (s : String) : String := ⟨s.toList.drop 1⟩

/-- Split a character list at every occurrence of `c` (JavaScript
`split` semantics: `[[]]` on the empty list, empty groups kept). -/
def splitCh (c : Char) : List Char → List (List Char)
  | [] => [[]]
  | x :: xs =>
    match splitCh c xs with
    | [] => [[]]
    | g :: gs => if x == c then [] :: g :: gs else (x :: g) :: gs

/-- JavaScript `path.split("/")`. -/
def splitSlash (s : String) : List String :=
  (splitCh '/' s.toList).map (fun cs => ⟨cs⟩)

/-- Result of `Slop.matchPath`. -/
structure PathMatchResult where
  matched : Bool
  params : List (String × String)
deriving DecidableEq, Repr

/-- JavaScript object property assignment `m[k] = v`: overwrite in place
if the key exists, else append. -/
def objAssign (m : List (String × String)) (k v : String) :
    List (String × String) :=
  if m.any (fun p => p.1 == k) then
    m.map (fun p => if p.1 == k then (k, v) else p)
  else m ++ [(k, v)]

/-- JavaScript object property read `m[k]`. -/
def getParam (m : List (String × String)) (k : String) : Option String :=
  (m.find? (fun p => p.1 == k)).map (fun p => p.2)

/-- The segment walk of `Slop.matchPath` (the `for` loop over
`routeParts` / `actualParts` with the `params` accumulator). -/
def matchSegs : List String → List String → List (String × String) →
    PathMatchResult
  | [], [], params => ⟨true, params⟩
  | rp :: rrest, ap :: arest, params =>
    if strStarts rp ":" then
      matchSegs rrest arest (objAssign params (strTail rp) ap)
    else if rp == ap then matchSegs rrest arest params
    else ⟨false, []⟩
  | _, _, _ => ⟨false, []⟩

/-- `Slop.matchPath(actualPath, routePath)`: fast path on literal string
equality, then split on `/`, compare lengths, and walk the segments. -/
def matchPath (actualPath routePath : String) : PathMatchResult :=
  if routePath == actualPath then ⟨true, []⟩
  else
    let routeParts := splitSlash routePath
    let actualParts := splitSlash actualPath
    if routeParts.length ≠ actualParts.length then ⟨false, []⟩
    else matchSegs routeParts actualParts []

/-- Index of the rightmost `:name` segment of a pattern binding `name`
(`none` if `name` is never bound).  Helper for stating the last-wins
property of duplicate parameter names. -/
def lastParamIdx : List String → String → Option Nat
  | [], _ => none
  | s :: rest, name =>
    match lastParamIdx rest name with
    | some j => some (j + 1)
    | none =>
      if strStarts s ":" && strTail s == name then some 0 else none

/-- Handler programs: the operations a `RouteHandler` / `ErrorHandler`
can perform on the response object and the continuation.  `setBody`
models `res.send` / `res.json` / `res.end` (a JavaScript handler may
pass `null`, hence `Option`), `setStatus` models `res.status`,
`setHeader` models `res.headers.set`, `callNext` models `await next(err?)`
and `throwE` models an exception escaping the handler. -/
inductive HProg where
  | done
  | setBody (b : Option String) (k : HProg)
  | setStatus (c : Nat) (k : HProg)
  | setHeader (n v : String) (k : HProg)
  | callNext (err : Option String) (k : HProg)
  | throwE (e : String)
deriving DecidableEq, Repr

/-- Does the program invoke the continuation anywhere? -/
def hasNext : HProg → Bool
  | .done => false
  | .setBody _ k => hasNext k
  | .setStatus _ k => hasNext k
  | .setHeader _ _ k => hasNext k
  | .callNext _ _ => true
  | .throwE _ => false

/-- A benign program never sets a non-null body, never throws, and only
invokes the continuation without an error value. -/
def benignProg : HProg → Bool
  | .done => true
  | .setBody b k => b == none && benignProg k
  | .setStatus _ k => benignProg k
  | .setHeader _ _ k => benignProg k
  | .callNext e k => e == none && benignProg k
  | .throwE _ => false

/-- A program that never sets a non-null response body: it may mutate
the status code and headers, invoke the continuation with or without an
error value, or throw — but it never responds. -/
def neverBody : HProg → Bool
  | .done => true
  | .setBody b k => b == none && neverBody k
  | .setStatus _ k => neverBody k
  | .setHeader _ _ k => neverBody k
  | .callNext _ k => neverBody k
  | .throwE _ => true

/-- A registered route (`Route` in the source). -/
structure Route where
  method : String
  path : String
  handlers : List HProg
deriving DecidableEq, Repr

/-- A registered middleware or error-handler entry (`Middleware` in the
source): a path-prefix filter plus a handler. -/
structure Middleware where
  path : String
  handler : HProg
deriving DecidableEq, Repr

/-- The engine's registry (the private fields of class `Slop`). -/
structure Slop where
  routes : List Route
  middleware : List Middleware
  errorHandlers : List Middleware
deriving DecidableEq, Repr

/-- `new Slop()`. -/
def Slop.empty : Slop := ⟨[], [], []⟩

/-- `Slop.addRoute` (shared by `get` / `post` / `put` / `delete` /
`patch`). -/
def Slop.addRoute (s : Slop) (m p : String) (hs : List HProg) : Slop :=
  { s with routes := s.routes ++ [⟨m, p, hs⟩] }

/-- `app.get(path, ...handlers)`. -/
def Slop.get (s : Slop) (p : String) (hs : List HProg) : Slop :=
  s.addRoute "GET" p hs

/-- `app.post(path, ...handlers)`. -/
def Slop.post (s : Slop) (p : String) (hs : List HProg) : Slop :=
  s.addRoute "POST" p hs

/-- `app.use` registering a normal middleware handler.  The source
classifies a handler by arity (`handler.length === 4` means error
handler); the embedding keeps the two classes apart by giving each its
own registration function. -/
def Slop.useMw (s : Slop) (path : String) (h : HProg) : Slop :=
  { s with middleware := s.middleware ++ [⟨path, h⟩] }

/-- `app.use` registering an error handler (source: arity-4 case). -/
def Slop.useErr (s : Slop) (path : String) (h : HProg) : Slop :=
  { s with errorHandlers := s.errorHandlers ++ [⟨path, h⟩] }

/-- The prefix rewrite of `useRouter`:
`path === "/" ? route.path : path + route.path`. -/
def mountPath (pre p : String) : String :=
  if pre == "/" then p else pre ++ p

/-- `app.useRouter(path, router)`: append a prefix-rewritten copy of
every route and middleware entry of the child into the parent. -/
def Slop.useRouter (s : Slop) (path : String) (router : Slop) : Slop :=
  { s with
    routes := s.routes ++
      router.routes.map (fun r => { r with path := mountPath path r.path }),
    middleware := s.middleware ++
      router.middleware.map (fun m => { m with path := mountPath path m.path }) }

/-- The per-request response model (`SlopResponse` data fields). -/
structure SlopResponse where
  statusCode : Nat
  headers : List (String × String)
  body : Option String
deriving DecidableEq, Repr

/-- `Headers.set` (overwrite an existing name, else append). -/
def hset (hs : List (String × String)) (n v : String) :
    List (String × String) :=
  if hs.any (fun p => p.1 == n) then
    hs.map (fun p => if p.1 == n then (n, v) else p)
  else hs ++ [(n, v)]

/-- Instrumentation events of one dispatch, in execution order. -/
inductive Ev where
  | mwInvoked (i : Nat)
  | routeMatched (ri : Nat) (ps : List (String × String))
  | routeHandlerInvoked (ri hi : Nat)
  | errSignaled (e : String)
  | errInvoked (i : Nat) (e : String)
deriving DecidableEq, Repr

/-- Mutable dispatch state: `req.params`, the response object, and the
event trace. -/
structure DState where
  params : List (String × String)
  res : SlopResponse
  evs : List Ev
deriving DecidableEq, Repr

/-- Outcome of running part of a dispatch: normal return, a thrown
error propagating upward, or fuel exhaustion. -/
inductive RunRes where
  | ok (st : DState)
  | thrown (e : String) (st : DState)
  | out (st : DState)
deriving DecidableEq, Repr

/-- The state carried by an outcome. -/
def RunRes.st : RunRes → DState
  | .ok st => st
  | .thrown _ st => st
  | .out st => st

/-- Fixed per-dispatch context: the registry and the request's method
and path (the closure variables of `handleRequest`). -/
structure Ctx where
  app : Slop
  method : String
  path : String

/-- Middleware prefix filter:
`mw.path === "*" || path.startsWith(mw.path)`. -/
def prefMatches (filter path : String) : Bool :=
  filter == "*" || strStarts path filter

/-- Error-handler prefix filter (same expression in the source). -/
def errMatches (filter path : String) : Bool :=
  filter == "*" || strStarts path filter

/-- Run an error-handler program.  Its continuation argument is the
no-op `() => Promise.resolve()`, so `callNext` does nothing; a thrown
error is reported in the second component. -/
def runEProg : HProg → SlopResponse → SlopResponse × Option String
  | .done, res => (res, none)
  | .setBody b k, res => runEProg k { res with body := b }
  | .setStatus c k, res => runEProg k { res with statusCode := c }
  | .setHeader n v k, res => runEProg k { res with headers := hset res.headers n v }
  | .callNext _ k, res => runEProg k res
  | .throwE e, res => (res, some e)

/-- The error branch of `next` (source lines 473-483): scan
`errorHandlers` in order; for each whose prefix matches, invoke it; if
the response body is non-null afterwards, return (handled); after a full
scan with a null body, re-throw `err`.  The second component is the
exception to propagate (`none` = handled). -/
def runErrorScan (path e : String) : Nat → List Middleware → DState →
    DState × Option String
  | _, [], st => (st, some e)
  | i, eh :: rest, st =>
    if errMatches eh.path path then
      let st1 : DState := { st with evs := st.evs ++ [.errInvoked i e] }
      match runEProg eh.handler st1.res with
      | (res1, some ex) => ({ st1 with res := res1 }, some ex)
      | (res1, none) =>
        match res1.body with
        | some _ => ({ st1 with res := res1 }, none)
        | none => runErrorScan path e (i + 1) rest { st1 with res := res1 }
    else runErrorScan path e (i + 1) rest st

/-- Reference error scan, following the spec's `ERROR_PHASE` wording:
given the already-filtered matching entries (with their registration
indices), invoke each in order, stop at the first after which the body
is non-null, and fall through re-raising `e` otherwise.  Returns the
response, the invoked indices, and the exception to propagate. -/
def errorScanRef (e : String) : List (Nat × Middleware) → SlopResponse →
    SlopResponse × List Nat × Option String
  | [], res => (res, [], some e)
  | (i, eh) :: rest, res =>
    match runEProg eh.handler res with
    | (res1, some ex) => (res1, [i], some ex)
    | (res1, none) =>
      match res1.body with
      | some _ => (res1, [i], none)
      | none =>
        match errorScanRef e rest res1 with
        | (res2, inv, exc) => (res2, i :: inv, exc)

/-- Does route `r` claim the request (method equal and pattern
matching)? -/
def routeHit (m p : String) (r : Route) : Bool :=
  r.method == m && (matchPath p r.path).matched

/-- The route scan of `next` (source lines 487-497): first route in
registration order with equal method and matching pattern, together
with its index and extracted parameters. -/
def findRoute (m p : String) : Nat → List Route →
    Option (Nat × Route × List (String × String))
  | _, [] => none
  | i, r :: rest =>
    if r.method == m then
      let pm := matchPath p r.path
      if pm.matched then some (i, r, pm.params)
      else findRoute m p (i + 1) rest
    else findRoute m p (i + 1) rest

/-- Run a normal handler program against an abstract continuation
`nextFn`.  A thrown error or fuel exhaustion from the continuation
propagates (the handler does not catch). -/
def runProgWith (nextFn : Option String → DState → RunRes) :
    HProg → DState → RunRes
  | .done, st => .ok st
  | .setBody b k, st =>
    runProgWith nextFn k { st with res := { st.res with body := b } }
  | .setStatus c k, st =>
    runProgWith nextFn k { st with res := { st.res with statusCode := c } }
  | .setHeader n v k, st =>
    runProgWith nextFn k { st with res := { st.res with headers := hset st.res.headers n v } }
  | .callNext e k, st =>
    match nextFn e st with
    | .ok st' => runProgWith nextFn k st'
    | r => r
  | .throwE e, st => .thrown e st

/-- The matched route's handler chain (source lines 501-504): invoke
each handler with the live continuation, stopping once the response
body is non-null. -/
def runChain (step : HProg → DState → RunRes) (ri : Nat) :
    Nat → List HProg → DState → RunRes
  | _, [], st => .ok st
  | hi, h :: rest, st =>
    match step h { st with evs := st.evs ++ [.routeHandlerInvoked ri hi] } with
    | .ok st2 =>
      match st2.res.body with
      | some _ => .ok st2
      | none => runChain step ri (hi + 1) rest st2
    | r => r

/-- The middleware loop of `handleRequest` (source lines 508-515):
invoke each prefix-matching entry, breaking once the response body is
non-null. -/
def runMwChain (step : HProg → DState → RunRes) (path : String) :
    Nat → List Middleware → DState → RunRes
  | _, [], st => .ok st
  | i, mw :: rest, st =>
    if prefMatches mw.path path then
      match step mw.handler { st with evs := st.evs ++ [.mwInvoked i] } with
      | .ok st2 =>
        match st2.res.body with
        | some _ => .ok st2
        | none => runMwChain step path (i + 1) rest st2
      | r => r
    else runMwChain step path (i + 1) rest st

/-- The continuation `next` of `handleRequest`, with a fuel bound
consumed at each invocation.  With an error argument it runs the error
scan (re-throwing when unhandled); without one it finds the first
matching route, binds its parameters onto the request, and runs its
handler chain. -/
def nextFuel (ctx : Ctx) : Nat → Option String → DState → RunRes
  | 0, _, st => .out st
  | _ + 1, some e, st =>
    let st0 : DState := { st with evs := st.evs ++ [.errSignaled e] }
    match runErrorScan ctx.path e 0 ctx.app.errorHandlers st0 with
    | (st', none) => .ok st'
    | (st', some e') => .thrown e' st'
  | f + 1, none, st =>
    match findRoute ctx.method ctx.path 0 ctx.app.routes with
    | none => .ok st
    | some (ri, r, ps) =>
      runChain (runProgWith (fun e st' => nextFuel ctx f e st')) ri 0 r.handlers
        { st with params := ps, evs := st.evs ++ [.routeMatched ri ps] }

/-- The handler step used by the middleware phase and the dispatcher:
run a program with the live continuation at the given fuel. -/
def stepAt (ctx : Ctx) (fuel : Nat) : HProg → DState → RunRes :=
  runProgWith (fun e st' => nextFuel ctx fuel e st')

/-- The fresh response object (`statusCode: 200`, empty headers, null
body). -/
def initRes : SlopResponse := ⟨200, [], none⟩

/-- The dispatch state at entry (`req.params = {}`). -/
def initSt : DState := ⟨[], initRes, []⟩

/-- The final response of one dispatch (status, headers, body of the
`Response` handed back to the adapter). -/
structure FinalResp where
  status : Nat
  headers : List (String × String)
  body : String
deriving DecidableEq, Repr

/-- `new Response("Not Found", { status: 404 })`. -/
def notFoundResp : FinalResp := ⟨404, [], "Not Found"⟩

/-- `new Response("Internal Server Error", { status: 500 })` (the
`catch` at the bottom of `handleRequest`). -/
def internalErrorResp : FinalResp := ⟨500, [], "Internal Server Error"⟩

/-- Map a phase outcome to the dispatch result: a thrown error is
caught at the dispatch boundary and becomes the generic 500 response; a
normal end with a null body becomes the generic 404 response; fuel
exhaustion is `none`. -/
def finalize : RunRes → Option (FinalResp × List Ev)
  | .out _ => none
  | .thrown _ st => some (internalErrorResp, st.evs)
  | .ok st =>
    match st.res.body with
    | none => some (notFoundResp, st.evs)
    | some b => some (⟨st.res.statusCode, st.res.headers, b⟩, st.evs)

/-- `Slop.handleRequest`: run the middleware loop; if no response body
was set, call `next()`; map the outcome to the final `Response`. -/
def Slop.handleRequest (app : Slop) (fuel : Nat) (method path : String) :
    Option (FinalResp × List Ev) :=
  let ctx : Ctx := ⟨app, method, path⟩
  match runMwChain (stepAt ctx fuel) path 0 app.middleware initSt with
  | .ok st =>
    match st.res.body with
    | none => finalize (nextFuel ctx fuel none st)
    | some _ => finalize (.ok st)
  | r => finalize r

/-- Outcome predicate for benign runs: not thrown, and if it ended
normally the body is still null and no new error signal was recorded
relative to `st0`. -/
def RunRes.quiet (st0 : DState) : RunRes → Prop
  | .ok st => st.res.body = none ∧
      ∀ e, Ev.errSignaled e ∈ st.evs → Ev.errSignaled e ∈ st0.evs
  | .thrown _ _ => False
  | .out _ => True

/-- No error signal was recorded between `st0` and `st1`. -/
def noNewSig (st0 st1 : DState) : Prop :=
  ∀ e, Ev.errSignaled e ∈ st1.evs → Ev.errSignaled e ∈ st0.evs

/-- Outcome predicate for runs of never-responding programs: if the run
ended normally the body is still null and no new error signal was
recorded relative to `st0`; aborted runs (thrown or out of fuel) are
unconstrained. -/
def RunRes.silentOk (st0 : DState) : RunRes → Prop
  | .ok st => st.res.body = none ∧
      ∀ e, Ev.errSignaled e ∈ st.evs → Ev.errSignaled e ∈ st0.evs
  | .thrown _ _ => True
  | .out _ => True

/-- Example app: the first middleware responds and then still invokes
the continuation; a later middleware and a matching route are
registered. -/
def exApp1 : Slop :=
  { routes := [⟨"GET", "/", [.setStatus 201 .done]⟩],
    middleware := [⟨"*", .setBody (some "hi") (.callNext none .done)⟩,
      ⟨"*", .setStatus 9 .done⟩],
    errorHandlers := [] }

/-- Example app: the first middleware responds without invoking the
continuation; a later middleware and a matching route are registered. -/
def exApp1w : Slop :=
  { routes := [⟨"GET", "/", [.setBody (some "R") .done]⟩],
    middleware := [⟨"*", .setBody (some "hi") .done⟩,
      ⟨"*", .setStatus 9 .done⟩],
    errorHandlers := [] }

/-- Example app: the middleware responds, signals an error, and then
invokes the continuation normally; two matching error handlers are
registered, the first of which sets nothing. -/
def exApp2 : Slop :=
  { routes := [⟨"GET", "/", [.setStatus 202 .done]⟩],
    middleware := [⟨"*",
      .setBody (some "B") (.callNext (some "e1") (.callNext none .done))⟩],
    errorHandlers := [⟨"*", .done⟩, ⟨"*", .setStatus 7 .done⟩] }

/-- Example app: a middleware signals an error while no error handler is
registered. -/
def exApp3 : Slop :=
  { routes := [], middleware := [⟨"*", .callNext (some "boom") .done⟩],
    errorHandlers := [] }

/-- Example app: a middleware signals an error; a matching error handler
is registered but only sets a status code and never a response body (a
second, non-matching error handler follows it). -/
def exApp3b : Slop :=
  { routes := [], middleware := [⟨"*", .callNext (some "boom") .done⟩],
    errorHandlers := [⟨"*", .setStatus 599 .done⟩, ⟨"/x", .done⟩] }

/-- Example app: the parameterized route `/users/:id` is registered
before the literal route `/users/me`. -/
def exApp5 : Slop :=
  { routes := [⟨"GET", "/users/:id", [.setBody (some "byId") .done]⟩,
      ⟨"GET", "/users/me", [.setBody (some "me") .done]⟩],
    middleware := [], errorHandlers := [] }

/-- Example app: a middleware that neither responds nor invokes the
continuation, then a second middleware and a matching route. -/
def exApp6 : Slop :=
  { routes := [⟨"GET", "/", [.setBody (some "R") .done]⟩],
    middleware := [⟨"*", .done⟩, ⟨"*", .setStatus 7 .done⟩],
    errorHandlers := [] }

/-- Example app: a middleware sets a header and falls through; no route
matches a GET request to `/`. -/
def exApp8 : Slop :=
  { routes := [⟨"POST", "/z", [.setBody (some "x") .done]⟩],
    middleware := [⟨"*", .setHeader "x-req" "1" (.callNext none .done)⟩],
    errorHandlers := [] }

/-- Example app: handlers set status codes but never a body. -/
def exApp10 : Slop :=
  { routes := [⟨"GET", "/", [.setStatus 201 .done]⟩],
    middleware := [⟨"*", .setStatus 418 .done⟩],
    errorHandlers := [] }

/-- Example app: a middleware sets a status code and then throws. -/
def exApp10c : Slop :=
  { routes := [], middleware := [⟨"*", .setStatus 418 (.throwE "boom")⟩],
    errorHandlers := [] }

section Helpers

/-! ## Generic list/string helpers -/

theorem mem_zip_self {l : List String} {pr : String × String}
    (h : pr ∈ l.zip l) : pr.1 = pr.2 := by
  induction l with
  | nil => simp [List.zip] at h
  | cons x xs ih =>
    rw [List.zip_cons_cons, List.mem_cons] at h
    rcases h with h | h
    · subst h; rfl
    · exact ih h

theorem sig_mem_append {evs : List Ev} {x : Ev} {e : String}
    (hx : ∀ s, x ≠ Ev.errSignaled s) (h : Ev.errSignaled e ∈ evs ++ [x]) :
    Ev.errSignaled e ∈ evs := by
  rcases List.mem_append.1 h with h | h
  · exact h
  · rw [List.mem_singleton] at h
    exact absurd h.symm (hx e)

/-! ## Path-matcher lemmas -/

theorem bneF {b : Bool} (h : ¬b = true) : b = false := by
  cases b
  · rfl
  · exact absurd rfl h

theorem find?_objAssign_self (k v : String) (m : List (String × String)) :
    List.find? (fun p => p.1 == k) (objAssign m k v) = some (k, v) := by
  unfold objAssign
  by_cases h : m.any (fun p => p.1 == k) = true
  · rw [if_pos h]
    induction m with
    | nil => simp at h
    | cons p ps ih =>
      by_cases hp : (p.1 == k) = true
      · rw [List.map_cons, if_pos hp, List.find?_cons_of_pos _ (by simp)]
      · rw [List.any_cons, Bool.or_eq_true] at h
        rw [List.map_cons, if_neg hp, List.find?_cons_of_neg _ (by simpa using bneF hp)]
        exact ih (h.resolve_left hp)
  · rw [if_neg h]
    induction m with
    | nil => simp [List.find?]
    | cons p ps ih =>
      rw [List.any_cons, Bool.or_eq_true, not_or] at h
      rw [List.cons_append,
        List.find?_cons_of_neg _ (by simpa using bneF h.1)]
      exact ih (by simpa using h.2)

theorem find?_objAssign_other (k v k' : String) (hne : k' ≠ k)
    (m : List (String × String)) :
    List.find? (fun p => p.1 == k') (objAssign m k v) =
      List.find? (fun p => p.1 == k') m := by
  have hkk : (k == k') = false := by
    cases hv : k == k'
    · rfl
    · exact absurd (eq_of_beq hv) fun h => hne h.symm
  unfold objAssign
  by_cases h : m.any (fun p => p.1 == k) = true
  · rw [if_pos h]
    clear h
    induction m with
    | nil => simp
    | cons p ps ih =>
      rw [List.map_cons]
      by_cases hp : (p.1 == k) = true
      · have hp' : (p.1 == k') = false := by
          rw [eq_of_beq hp]; exact hkk
        rw [if_pos hp, List.find?_cons_of_neg _ (by simpa using hkk),
          List.find?_cons_of_neg _ (by simpa using hp'), ih]
      · by_cases hq : (p.1 == k') = true
        · rw [if_neg hp]
          simp only [List.find?, hq]
        · rw [if_neg hp]
          simp only [List.find?, bneF hq]
          exact ih
  · rw [if_neg h]
    rw [List.find?_append]
    have : List.find? (fun p => p.1 == k') [(k, v)] = none := by
      simp [List.find?, hkk]
    rw [this]
    cases List.find? (fun p => p.1 == k') m <;> rfl

theorem getParam_objAssign_self (m : List (String × String)) (k v : String) :
    getParam (objAssign m k v) k = some v := by
  rw [getParam, find?_objAssign_self]
  rfl

theorem getParam_objAssign_other (m : List (String × String)) (k v k' : String)
    (hne : k' ≠ k) : getParam (objAssign m k v) k' = getParam m k' := by
  rw [getParam, getParam, find?_objAssign_other k v k' hne]

theorem matchSegs_false_shape : ∀ (rs as : List String)
    (acc : List (String × String)),
    (matchSegs rs as acc).matched = false → matchSegs rs as acc = ⟨false, []⟩ := by
  intro rs
  induction rs with
  | nil =>
    intro as acc h
    cases as with
    | nil => simp [matchSegs] at h
    | cons a arest => rfl
  | cons rp rrest ih =>
    intro as acc h
    cases as with
    | nil => rfl
    | cons ap arest =>
      simp only [matchSegs] at h ⊢
      by_cases h1 : strStarts rp ":" = true
      · rw [if_pos h1] at h ⊢
        exact ih _ _ h
      · rw [if_neg h1] at h ⊢
        by_cases h2 : (rp == ap) = true
        · rw [if_pos h2] at h ⊢
          exact ih _ _ h
        · rw [if_neg h2]

theorem matchSegs_matched_iff : ∀ (rs as : List String)
    (acc : List (String × String)), rs.length = as.length →
    ((matchSegs rs as acc).matched = true ↔
      ∀ pr ∈ rs.zip as, strStarts pr.1 ":" = true ∨ pr.1 = pr.2) := by
  intro rs
  induction rs with
  | nil =>
    intro as acc h
    cases as with
    | nil => simp [matchSegs]
    | cons _ _ => simp at h
  | cons rp rrest ih =>
    intro as acc hlen
    cases as with
    | nil => simp at hlen
    | cons ap arest =>
      simp only [List.length_cons, Nat.add_right_cancel_iff] at hlen
      rw [List.zip_cons_cons]
      simp only [matchSegs]
      by_cases h1 : strStarts rp ":" = true
      · rw [if_pos h1, ih _ _ hlen]
        constructor
        · intro h pr hpr
          rcases List.mem_cons.1 hpr with h' | h'
          · rw [h']
            exact Or.inl h1
          · exact h pr h'
        · intro h pr hpr
          exact h pr (List.mem_cons_of_mem _ hpr)
      · rw [if_neg h1]
        by_cases h2 : (rp == ap) = true
        · rw [if_pos h2, ih _ _ hlen]
          constructor
          · intro h pr hpr
            rcases List.mem_cons.1 hpr with h' | h'
            · rw [h']
              exact Or.inr (eq_of_beq h2)
            · exact h pr h'
          · intro h pr hpr
            exact h pr (List.mem_cons_of_mem _ hpr)
        · rw [if_neg h2]
          constructor
          · intro h
            exact absurd h (by simp)
          · intro h
            exfalso
            rcases h (rp, ap) (List.mem_cons_self _ _) with h' | h'
            · exact h1 h'
            · exact h2 (by rw [show rp = ap from h']; exact beq_self_eq_true ap)

theorem matchPath_eq_self (p : String) : matchPath p p = ⟨true, []⟩ := by
  rw [matchPath, if_pos (beq_self_eq_true p)]

theorem matchPath_lengths {a r : String} (h : (matchPath a r).matched = true) :
    (splitSlash r).length = (splitSlash a).length := by
  by_cases he : (r == a) = true
  · rw [eq_of_beq he]
  · by_cases hl : (splitSlash r).length = (splitSlash a).length
    · exact hl
    · exfalso
      rw [matchPath, if_neg he] at h
      simp only [if_pos hl] at h
      simp at h

theorem matchPath_not_eq {a r : String} (he : (r == a) = false)
    (hl : (splitSlash r).length = (splitSlash a).length) :
    matchPath a r = matchSegs (splitSlash r) (splitSlash a) [] := by
  rw [matchPath, if_neg (by simp [he])]
  simp only [if_neg (by omega : ¬(splitSlash r).length ≠ (splitSlash a).length)]

theorem lastParamIdx_some_occ : ∀ (rs : List String) (name : String) (i : Nat),
    lastParamIdx rs name = some i →
    ∃ s, rs.get? i = some s ∧ strStarts s ":" = true ∧ strTail s = name := by
  intro rs
  induction rs with
  | nil => intro name i h; simp [lastParamIdx] at h
  | cons x rest ih =>
    intro name i h
    simp only [lastParamIdx] at h
    cases hl : lastParamIdx rest name with
    | some j =>
      rw [hl] at h
      injection h with h
      subst h
      obtain ⟨s, hg, hs, hn⟩ := ih name j hl
      exact ⟨s, by rw [List.get?_cons_succ]; exact hg, hs, hn⟩
    | none =>
      rw [hl] at h
      by_cases hc : (strStarts x ":" && strTail x == name) = true
      · rw [if_pos hc] at h
        injection h with h
        subst h
        rw [Bool.and_eq_true] at hc
        exact ⟨x, List.get?_cons_zero, hc.1, eq_of_beq hc.2⟩
      · rw [if_neg hc] at h
        cases h

theorem lastParamIdx_none_occ : ∀ (rs : List String) (name : String),
    lastParamIdx rs name = none →
    ∀ j s, rs.get? j = some s → strStarts s ":" = true → strTail s ≠ name := by
  intro rs
  induction rs with
  | nil =>
    intro name h j s hg
    rw [List.get?_nil] at hg
    cases hg
  | cons x rest ih =>
    intro name h j s hg hs
    simp only [lastParamIdx] at h
    cases hl : lastParamIdx rest name with
    | some j' => rw [hl] at h; cases h
    | none =>
      rw [hl] at h
      by_cases hc : (strStarts x ":" && strTail x == name) = true
      · rw [if_pos hc] at h
        cases h
      · cases j with
        | zero =>
          rw [List.get?_cons_zero] at hg
          injection hg with hg
          subst hg
          intro hn
          exact hc (by simp [hs, hn])
        | succ j' =>
          rw [List.get?_cons_succ] at hg
          exact ih name hl j' s hg hs

theorem lastParamIdx_some_last : ∀ (rs : List String) (name : String) (i : Nat),
    lastParamIdx rs name = some i →
    ∀ j s, i < j → rs.get? j = some s → strStarts s ":" = true →
      strTail s ≠ name := by
  intro rs
  induction rs with
  | nil => intro name i h; simp [lastParamIdx] at h
  | cons x rest ih =>
    intro name i h j s hij hg hs
    simp only [lastParamIdx] at h
    cases hl : lastParamIdx rest name with
    | some j' =>
      rw [hl] at h
      injection h with h
      subst h
      cases j with
      | zero => exact absurd hij (by omega)
      | succ j'' =>
        rw [List.get?_cons_succ] at hg
        exact ih name j' hl j'' s (by omega) hg hs
    | none =>
      rw [hl] at h
      by_cases hc : (strStarts x ":" && strTail x == name) = true
      · rw [if_pos hc] at h
        injection h with h
        subst h
        cases j with
        | zero => exact absurd hij (by omega)
        | succ j'' =>
          rw [List.get?_cons_succ] at hg
          exact lastParamIdx_none_occ rest name hl j'' s hg hs
      · rw [if_neg hc] at h
        cases h

theorem lastParamIdx_last_some : ∀ (rs : List String) (name : String) (i : Nat)
    (s : String), rs.get? i = some s → strStarts s ":" = true →
    strTail s = name →
    (∀ j t, i < j → rs.get? j = some t → strStarts t ":" = true →
      strTail t ≠ name) →
    lastParamIdx rs name = some i := by
  intro rs
  induction rs with
  | nil =>
    intro name i s hg
    rw [List.get?_nil] at hg
    cases hg
  | cons x rest ih =>
    intro name i s hg hs hn hlast
    simp only [lastParamIdx]
    cases i with
    | zero =>
      rw [List.get?_cons_zero] at hg
      injection hg with hg
      subst hg
      have hnone : lastParamIdx rest name = none := by
        cases hl : lastParamIdx rest name with
        | none => rfl
        | some j' =>
          obtain ⟨t, hgt, hst, hnt⟩ := lastParamIdx_some_occ rest name j' hl
          exact absurd hnt
            (hlast (j' + 1) t (by omega)
              (by rw [List.get?_cons_succ]; exact hgt) hst)
      rw [hnone, if_pos (by simp [hs, hn])]
    | succ i' =>
      rw [List.get?_cons_succ] at hg
      have hrest : lastParamIdx rest name = some i' := by
        apply ih name i' s hg hs hn
        intro j t hij hgt hst
        exact hlast (j + 1) t (by omega)
          (by rw [List.get?_cons_succ]; exact hgt) hst
      rw [hrest]

theorem matchSegs_params : ∀ (rs as : List String)
    (acc ps : List (String × String)), matchSegs rs as acc = ⟨true, ps⟩ →
    ∀ name, getParam ps name =
      (match lastParamIdx rs name with
       | some j => as.get? j
       | none => getParam acc name) := by
  intro rs
  induction rs with
  | nil =>
    intro as acc ps h name
    cases as with
    | nil =>
      simp only [matchSegs, PathMatchResult.mk.injEq] at h
      rw [← h.2]
      simp [lastParamIdx]
    | cons a arest => simp [matchSegs] at h
  | cons s rest ih =>
    intro as acc ps h name
    cases as with
    | nil => simp [matchSegs] at h
    | cons a arest =>
      simp only [matchSegs] at h
      by_cases h1 : strStarts s ":" = true
      · rw [if_pos h1] at h
        rw [ih arest (objAssign acc (strTail s) a) ps h name]
        cases hl : lastParamIdx rest name with
        | some j =>
          simp only [lastParamIdx, hl]
          rw [List.get?_cons_succ]
        | none =>
          simp only [lastParamIdx, hl]
          by_cases hn : (strStarts s ":" && strTail s == name) = true
          · rw [if_pos hn]
            show getParam (objAssign acc (strTail s) a) name = some a
            have hname : strTail s = name := by
              rw [Bool.and_eq_true] at hn
              exact eq_of_beq hn.2
            rw [← hname, getParam_objAssign_self]
          · rw [if_neg hn]
            have hne : (strTail s == name) = false := by
              cases hv : strTail s == name
              · rfl
              · exact absurd (by simp [h1, hv]) hn
            apply getParam_objAssign_other
            intro he
            rw [he, beq_self_eq_true] at hne
            cases hne
      · rw [if_neg h1] at h
        by_cases h2 : (s == a) = true
        · rw [if_pos h2] at h
          rw [ih arest acc ps h name]
          simp only [lastParamIdx]
          cases hl : lastParamIdx rest name with
          | some j =>
            show arest.get? j = (a :: arest).get? (j + 1)
            rw [List.get?_cons_succ]
          | none => simp [bneF h1]
        · rw [if_neg h2] at h
          simp at h

/-! ## Route-scan lemmas -/

theorem findRoute_add (m p : String) : ∀ (rs : List Route) (i0 : Nat),
    findRoute m p i0 rs = (findRoute m p 0 rs).map (fun x => (i0 + x.1, x.2)) := by
  intro rs
  induction rs with
  | nil => intro i0; simp [findRoute]
  | cons r rest ih =>
    intro i0
    simp only [findRoute]
    by_cases h1 : (r.method == m) = true
    · rw [if_pos h1, if_pos h1]
      by_cases h2 : (matchPath p r.path).matched = true
      · rw [if_pos h2, if_pos h2]
        simp
      · rw [if_neg h2, if_neg h2, ih (i0 + 1), ih 1, Option.map_map]
        cases findRoute m p 0 rest with
        | none => rfl
        | some x =>
          cases x with
          | mk a y =>
            show some (i0 + 1 + a, y) = some (i0 + (1 + a), y)
            have hadd : i0 + 1 + a = i0 + (1 + a) := by omega
            rw [hadd]
    · rw [if_neg h1, if_neg h1, ih (i0 + 1), ih 1, Option.map_map]
      cases findRoute m p 0 rest with
      | none => rfl
      | some x =>
        cases x with
        | mk a y =>
          show some (i0 + 1 + a, y) = some (i0 + (1 + a), y)
          have hadd : i0 + 1 + a = i0 + (1 + a) := by omega
          rw [hadd]

theorem findRoute_some_spec (m p : String) : ∀ (rs : List Route) (i : Nat)
    (r : Route) (ps : List (String × String)),
    findRoute m p 0 rs = some (i, r, ps) →
    rs.get? i = some r ∧ routeHit m p r = true ∧
      ps = (matchPath p r.path).params ∧
      ∀ j r', j < i → rs.get? j = some r' → routeHit m p r' = false := by
  intro rs
  induction rs with
  | nil => intro i r ps h; simp [findRoute] at h
  | cons hd rest ih =>
    intro i r ps h
    simp only [findRoute] at h
    by_cases h1 : (hd.method == m) = true
    · rw [if_pos h1] at h
      by_cases h2 : (matchPath p hd.path).matched = true
      · rw [if_pos h2] at h
        simp only [Option.some.injEq, Prod.mk.injEq] at h
        obtain ⟨hi, hr, hps⟩ := h
        subst hi
        subst hr
        refine ⟨List.get?_cons_zero, ?_, hps.symm, ?_⟩
        · simp [routeHit, h1, h2]
        · intro j r' hj
          exact absurd hj (by omega)
      · rw [if_neg h2, findRoute_add m p rest 1] at h
        cases hf : findRoute m p 0 rest with
        | none => rw [hf] at h; simp at h
        | some x =>
          rcases x with ⟨i', r', ps'⟩
          rw [hf] at h
          simp only [Option.map_some', Option.some.injEq, Prod.mk.injEq] at h
          obtain ⟨hi, hr, hps⟩ := h
          subst hr
          subst hps
          obtain ⟨hg, hhit, hpseq, hlt⟩ := ih i' r' ps' hf
          have hieq : i = i' + 1 := by omega
          subst hieq
          refine ⟨by rw [List.get?_cons_succ]; exact hg, hhit, hpseq, ?_⟩
          intro j r'' hj hgj
          cases j with
          | zero =>
            rw [List.get?_cons_zero] at hgj
            injection hgj with hgj
            subst hgj
            simp [routeHit, bneF h2]
          | succ j' =>
            rw [List.get?_cons_succ] at hgj
            exact hlt j' r'' (by omega) hgj
    · rw [if_neg h1, findRoute_add m p rest 1] at h
      cases hf : findRoute m p 0 rest with
      | none => rw [hf] at h; simp at h
      | some x =>
        rcases x with ⟨i', r', ps'⟩
        rw [hf] at h
        simp only [Option.map_some', Option.some.injEq, Prod.mk.injEq] at h
        obtain ⟨hi, hr, hps⟩ := h
        subst hr
        subst hps
        obtain ⟨hg, hhit, hpseq, hlt⟩ := ih i' r' ps' hf
        have hieq : i = i' + 1 := by omega
        subst hieq
        refine ⟨by rw [List.get?_cons_succ]; exact hg, hhit, hpseq, ?_⟩
        intro j r'' hj hgj
        cases j with
        | zero =>
          rw [List.get?_cons_zero] at hgj
          injection hgj with hgj
          subst hgj
          simp [routeHit, bneF h1]
        | succ j' =>
          rw [List.get?_cons_succ] at hgj
          exact hlt j' r'' (by omega) hgj

theorem findRoute_none_iff (m p : String) : ∀ rs : List Route,
    findRoute m p 0 rs = none ↔ ∀ r ∈ rs, routeHit m p r = false := by
  intro rs
  induction rs with
  | nil => simp [findRoute]
  | cons hd rest ih =>
    simp only [findRoute]
    by_cases h1 : (hd.method == m) = true
    · rw [if_pos h1]
      by_cases h2 : (matchPath p hd.path).matched = true
      · rw [if_pos h2]
        constructor
        · intro h
          exact absurd h (by simp)
        · intro h
          have := h hd (List.mem_cons_self _ _)
          simp [routeHit, h1, h2] at this
      · rw [if_neg h2, findRoute_add m p rest 1]
        constructor
        · intro h r hr
          rcases List.mem_cons.1 hr with h' | h'
          · subst h'
            simp [routeHit, bneF h2]
          · have hn : findRoute m p 0 rest = none := by
              cases hf : findRoute m p 0 rest with
              | none => rfl
              | some x => rw [hf] at h; simp at h
            exact (ih.1 hn) r h'
        · intro h
          have hn : findRoute m p 0 rest =
              none := ih.2 fun r hr => h r (List.mem_cons_of_mem _ hr)
          rw [hn]
          rfl
    · rw [if_neg h1, findRoute_add m p rest 1]
      constructor
      · intro h r hr
        rcases List.mem_cons.1 hr with h' | h'
        · subst h'
          simp [routeHit, bneF h1]
        · have hn : findRoute m p 0 rest = none := by
            cases hf : findRoute m p 0 rest with
            | none => rfl
            | some x => rw [hf] at h; simp at h
          exact (ih.1 hn) r h'
      · intro h
        have hn : findRoute m p 0 rest =
            none := ih.2 fun r hr => h r (List.mem_cons_of_mem _ hr)
        rw [hn]
        rfl

theorem findRoute_mem (m p : String) : ∀ (rs : List Route) (i0 i : Nat)
    (r : Route) (ps : List (String × String)),
    findRoute m p i0 rs = some (i, r, ps) → r ∈ rs := by
  intro rs
  induction rs with
  | nil => intro i0 i r ps h; simp [findRoute] at h
  | cons hd rest ih =>
    intro i0 i r ps h
    simp only [findRoute] at h
    by_cases h1 : (hd.method == m) = true
    · rw [if_pos h1] at h
      by_cases h2 : (matchPath p hd.path).matched = true
      · rw [if_pos h2] at h
        simp only [Option.some.injEq, Prod.mk.injEq] at h
        exact h.2.1 ▸ List.mem_cons_self _ _
      · rw [if_neg h2] at h
        exact List.mem_cons_of_mem _ (ih _ _ _ _ h)
    · rw [if_neg h1] at h
      exact List.mem_cons_of_mem _ (ih _ _ _ _ h)

/-! ## Handler purity: a program that never calls the continuation acts
on the response object alone -/

theorem runProgWith_pure (nextFn : Option String → DState → RunRes) :
    ∀ (p : HProg) (st : DState), hasNext p = false →
    runProgWith nextFn p st =
      (match runEProg p st.res with
       | (r, none) => RunRes.ok { st with res := r }
       | (r, some e) => RunRes.thrown e { st with res := r }) := by
  intro p
  induction p with
  | done => intro st h; rfl
  | setBody b k ih =>
    intro st h
    simp only [hasNext] at h
    exact ih ⟨st.params, { st.res with body := b }, st.evs⟩ h
  | setStatus c k ih =>
    intro st h
    simp only [hasNext] at h
    exact ih ⟨st.params, { st.res with statusCode := c }, st.evs⟩ h
  | setHeader n v k ih =>
    intro st h
    simp only [hasNext] at h
    exact ih ⟨st.params, { st.res with headers := hset st.res.headers n v }, st.evs⟩ h
  | callNext e k ih => intro st h; simp [hasNext] at h
  | throwE e => intro st h; rfl

theorem runProgWith_pure_cm (nextFn : Option String → DState → RunRes) :
    ∀ (p : HProg) (pa : List (String × String)) (re : SlopResponse)
    (ev : List Ev), hasNext p = false →
    runProgWith nextFn p ⟨pa, re, ev⟩ =
      (match runEProg p re with
       | (r, none) => RunRes.ok ⟨pa, r, ev⟩
       | (r, some e) => RunRes.thrown e ⟨pa, r, ev⟩) := by
  intro p pa re ev h
  exact runProgWith_pure nextFn p ⟨pa, re, ev⟩ h

/-! ## One-step reduction lemmas for the dispatch loops -/

theorem runMwChain_cons_skip (step : HProg → DState → RunRes)
    (path : String) (i0 : Nat) (mw : Middleware) (rest : List Middleware)
    (st : DState) (hm : prefMatches mw.path path = false) :
    runMwChain step path i0 (mw :: rest) st =
      runMwChain step path (i0 + 1) rest st := by
  simp only [runMwChain]
  rw [if_neg (by simp [hm])]

theorem runMwChain_cons_ok (step : HProg → DState → RunRes)
    (path : String) (i0 : Nat) (mw : Middleware) (rest : List Middleware)
    (pa : List (String × String)) (re : SlopResponse) (ev : List Ev)
    (pa2 : List (String × String)) (re2 : SlopResponse) (ev2 : List Ev)
    (hm : prefMatches mw.path path = true)
    (hs : step mw.handler ⟨pa, re, ev ++ [Ev.mwInvoked i0]⟩ =
      RunRes.ok ⟨pa2, re2, ev2⟩) :
    runMwChain step path i0 (mw :: rest) ⟨pa, re, ev⟩ =
      (match re2.body with
       | some _ => RunRes.ok ⟨pa2, re2, ev2⟩
       | none => runMwChain step path (i0 + 1) rest ⟨pa2, re2, ev2⟩) := by
  simp only [runMwChain]
  rw [if_pos hm, hs]

theorem runMwChain_cons_abort (step : HProg → DState → RunRes)
    (path : String) (i0 : Nat) (mw : Middleware) (rest : List Middleware)
    (pa : List (String × String)) (re : SlopResponse) (ev : List Ev)
    (r : RunRes)
    (hm : prefMatches mw.path path = true)
    (hs : step mw.handler ⟨pa, re, ev ++ [Ev.mwInvoked i0]⟩ = r)
    (hr : ∀ st', r ≠ RunRes.ok st') :
    runMwChain step path i0 (mw :: rest) ⟨pa, re, ev⟩ = r := by
  simp only [runMwChain]
  rw [if_pos hm, hs]
  cases r with
  | ok st' => exact absurd rfl (hr st')
  | thrown e st' => rfl
  | out st' => rfl

theorem runChain_cons_ok (step : HProg → DState → RunRes) (ri hi : Nat)
    (h : HProg) (rest : List HProg)
    (pa : List (String × String)) (re : SlopResponse) (ev : List Ev)
    (pa2 : List (String × String)) (re2 : SlopResponse) (ev2 : List Ev)
    (hs : step h ⟨pa, re, ev ++ [Ev.routeHandlerInvoked ri hi]⟩ =
      RunRes.ok ⟨pa2, re2, ev2⟩) :
    runChain step ri hi (h :: rest) ⟨pa, re, ev⟩ =
      (match re2.body with
       | some _ => RunRes.ok ⟨pa2, re2, ev2⟩
       | none => runChain step ri (hi + 1) rest ⟨pa2, re2, ev2⟩) := by
  simp only [runChain]
  rw [hs]

theorem runChain_cons_abort (step : HProg → DState → RunRes) (ri hi : Nat)
    (h : HProg) (rest : List HProg)
    (pa : List (String × String)) (re : SlopResponse) (ev : List Ev)
    (r : RunRes)
    (hs : step h ⟨pa, re, ev ++ [Ev.routeHandlerInvoked ri hi]⟩ = r)
    (hr : ∀ st', r ≠ RunRes.ok st') :
    runChain step ri hi (h :: rest) ⟨pa, re, ev⟩ = r := by
  simp only [runChain]
  rw [hs]
  cases r with
  | ok st' => exact absurd rfl (hr st')
  | thrown e st' => rfl
  | out st' => rfl

theorem runProgWith_callNext_ok (nextFn : Option String → DState → RunRes)
    (e : Option String) (k : HProg) (st st' : DState)
    (h : nextFn e st = RunRes.ok st') :
    runProgWith nextFn (.callNext e k) st = runProgWith nextFn k st' := by
  simp only [runProgWith]
  rw [h]

theorem runProgWith_callNext_abort (nextFn : Option String → DState → RunRes)
    (e : Option String) (k : HProg) (st : DState) (r : RunRes)
    (h : nextFn e st = r) (hr : ∀ st', r ≠ RunRes.ok st') :
    runProgWith nextFn (.callNext e k) st = r := by
  simp only [runProgWith]
  rw [h]
  cases r with
  | ok st' => exact absurd rfl (hr st')
  | thrown e' st' => rfl
  | out st' => rfl

/-! ## Middleware-loop lemmas -/

theorem runMwChain_append_ok (step : HProg → DState → RunRes) (path : String) :
    ∀ (xs ys : List Middleware) (i0 : Nat) (st st1 : DState),
    runMwChain step path i0 xs st = .ok st1 → st1.res.body = none →
    runMwChain step path i0 (xs ++ ys) st =
      runMwChain step path (i0 + xs.length) ys st1 := by
  intro xs
  induction xs with
  | nil =>
    intro ys i0 st st1 h hb
    simp only [runMwChain] at h
    injection h with h
    subst h
    rfl
  | cons mw rest ih =>
    intro ys i0 st st1 h hb
    obtain ⟨pa, re, ev⟩ := st
    rw [List.cons_append]
    have hidx : i0 + (mw :: rest).length = (i0 + 1) + rest.length := by
      rw [List.length_cons]
      omega
    rw [hidx]
    by_cases hm : prefMatches mw.path path = true
    · cases hs : step mw.handler ⟨pa, re, ev ++ [Ev.mwInvoked i0]⟩ with
      | ok st2 =>
        obtain ⟨pa2, re2, ev2⟩ := st2
        rw [runMwChain_cons_ok step path i0 mw rest pa re ev pa2 re2 ev2 hm hs] at h
        rw [runMwChain_cons_ok step path i0 mw (rest ++ ys) pa re ev pa2 re2 ev2 hm hs]
        cases hb2 : re2.body with
        | some b =>
          rw [hb2] at h
          have h' : RunRes.ok (⟨pa2, re2, ev2⟩ : DState) = RunRes.ok st1 := h
          injection h' with h'
          rw [← h'] at hb
          have hb' : re2.body = none := hb
          rw [hb'] at hb2
          cases hb2
        | none =>
          rw [hb2] at h
          exact ih ys (i0 + 1) ⟨pa2, re2, ev2⟩ st1 h hb
      | thrown e st2 =>
        rw [runMwChain_cons_abort step path i0 mw rest pa re ev _ hm hs
          (by intro st'; simp)] at h
        cases h
      | out st2 =>
        rw [runMwChain_cons_abort step path i0 mw rest pa re ev _ hm hs
          (by intro st'; simp)] at h
        cases h
    · have hm' : prefMatches mw.path path = false := bneF hm
      rw [runMwChain_cons_skip step path i0 mw rest _ hm'] at h
      rw [runMwChain_cons_skip step path i0 mw (rest ++ ys) _ hm']
      exact ih ys (i0 + 1) ⟨pa, re, ev⟩ st1 h hb

theorem runMwChain_pure_evs (nextFn : Option String → DState → RunRes)
    (path : String) : ∀ (xs : List Middleware) (i0 : Nat) (st st1 : DState),
    xs.all (fun x => !(hasNext x.handler)) = true →
    runMwChain (runProgWith nextFn) path i0 xs st = .ok st1 →
    st1.params = st.params ∧
    ∀ e ∈ st1.evs, e ∈ st.evs ∨
      ∃ j, i0 ≤ j ∧ j < i0 + xs.length ∧ e = Ev.mwInvoked j := by
  intro xs
  induction xs with
  | nil =>
    intro i0 st st1 _ hrun
    simp only [runMwChain] at hrun
    injection hrun with hrun
    subst hrun
    exact ⟨rfl, fun e he => Or.inl he⟩
  | cons mw rest ih =>
    intro i0 st st1 hall hrun
    obtain ⟨pa, re, ev⟩ := st
    rw [List.all_cons, Bool.and_eq_true] at hall
    obtain ⟨hmw, hrest⟩ := hall
    have hmw' : hasNext mw.handler = false := by simpa using hmw
    by_cases hm : prefMatches mw.path path = true
    · cases hE : runEProg mw.handler re with
      | mk res1 exc =>
        cases exc with
        | none =>
          have hs : runProgWith nextFn mw.handler
              ⟨pa, re, ev ++ [Ev.mwInvoked i0]⟩ =
              RunRes.ok ⟨pa, res1, ev ++ [Ev.mwInvoked i0]⟩ := by
            rw [runProgWith_pure_cm nextFn mw.handler pa re _ hmw', hE]
          rw [runMwChain_cons_ok _ path i0 mw rest pa re ev pa res1 _ hm hs]
            at hrun
          cases hb : res1.body with
          | some b =>
            rw [hb] at hrun
            have h' : RunRes.ok (⟨pa, res1, ev ++ [Ev.mwInvoked i0]⟩ : DState) =
                RunRes.ok st1 := hrun
            injection h' with h'
            rw [← h']
            refine ⟨rfl, fun e he => ?_⟩
            rcases List.mem_append.1 he with h'' | h''
            · exact Or.inl h''
            · rw [List.mem_singleton] at h''
              exact Or.inr ⟨i0, by omega, by
                rw [List.length_cons]; omega, h''⟩
          | none =>
            rw [hb] at hrun
            obtain ⟨hp, hev⟩ := ih (i0 + 1) ⟨pa, res1, ev ++ [Ev.mwInvoked i0]⟩
              st1 hrest hrun
            refine ⟨hp, fun e he => ?_⟩
            rcases hev e he with h'' | ⟨j, hj1, hj2, hj3⟩
            · rcases List.mem_append.1 h'' with h3 | h3
              · exact Or.inl h3
              · rw [List.mem_singleton] at h3
                exact Or.inr ⟨i0, by omega, by
                  rw [List.length_cons]; omega, h3⟩
            · exact Or.inr ⟨j, by omega, by
                rw [List.length_cons]; omega, hj3⟩
        | some ex =>
          have hs : runProgWith nextFn mw.handler
              ⟨pa, re, ev ++ [Ev.mwInvoked i0]⟩ =
              RunRes.thrown ex ⟨pa, res1, ev ++ [Ev.mwInvoked i0]⟩ := by
            rw [runProgWith_pure_cm nextFn mw.handler pa re _ hmw', hE]
          rw [runMwChain_cons_abort _ path i0 mw rest pa re ev _ hm hs
            (by intro st'; simp)] at hrun
          cases hrun
    · have hm' : prefMatches mw.path path = false := bneF hm
      rw [runMwChain_cons_skip _ path i0 mw rest _ hm'] at hrun
      obtain ⟨hp, hev⟩ := ih (i0 + 1) ⟨pa, re, ev⟩ st1 hrest hrun
      refine ⟨hp, fun e he => ?_⟩
      rcases hev e he with h'' | ⟨j, hj1, hj2, hj3⟩
      · exact Or.inl h''
      · exact Or.inr ⟨j, by omega, by rw [List.length_cons]; omega, hj3⟩

/-! ## Error-scan lemmas -/

theorem runErrorScan_ref (path e : String) : ∀ (ehs : List Middleware)
    (i0 : Nat) (pa : List (String × String)) (re : SlopResponse)
    (ev : List Ev),
    runErrorScan path e i0 ehs ⟨pa, re, ev⟩ =
      (⟨pa,
        (errorScanRef e ((List.enumFrom i0 ehs).filter
          fun q => errMatches q.2.path path) re).1,
        ev ++ ((errorScanRef e ((List.enumFrom i0 ehs).filter
          fun q => errMatches q.2.path path) re).2.1).map
            (fun i => Ev.errInvoked i e)⟩,
       (errorScanRef e ((List.enumFrom i0 ehs).filter
          fun q => errMatches q.2.path path) re).2.2) := by
  intro ehs
  induction ehs with
  | nil =>
    intro i0 pa re ev
    simp [runErrorScan, errorScanRef, List.enumFrom]
  | cons eh rest ih =>
    intro i0 pa re ev
    simp only [runErrorScan, List.enumFrom]
    by_cases hm : errMatches eh.path path = true
    · have hfil : List.filter (fun q : Nat × Middleware =>
          errMatches q.2.path path) ((i0, eh) :: List.enumFrom (i0 + 1) rest) =
          (i0, eh) :: List.filter (fun q : Nat × Middleware =>
            errMatches q.2.path path) (List.enumFrom (i0 + 1) rest) := by
        simp [List.filter_cons, hm]
      rw [if_pos hm, hfil]
      simp only [errorScanRef]
      cases hE : runEProg eh.handler re with
      | mk res1 exc =>
        cases exc with
        | some ex => simp
        | none =>
          cases hb : res1.body with
          | some b => simp [hb]
          | none =>
            simp only [hb]
            rw [ih (i0 + 1) pa res1 (ev ++ [Ev.errInvoked i0 e])]
            cases hR : errorScanRef e ((List.enumFrom (i0 + 1) rest).filter
                fun q => errMatches q.2.path path) res1 with
            | mk res2 rest2 =>
              cases rest2 with
              | mk inv exc2 =>
                simp [List.append_assoc]
    · have hfil : List.filter (fun q : Nat × Middleware =>
          errMatches q.2.path path) ((i0, eh) :: List.enumFrom (i0 + 1) rest) =
          List.filter (fun q : Nat × Middleware =>
            errMatches q.2.path path) (List.enumFrom (i0 + 1) rest) := by
        simp [List.filter_cons, bneF hm]
      rw [if_neg hm, hfil]
      exact ih (i0 + 1) pa re ev

theorem errorScanRef_handled (e : String) : ∀ (l : List (Nat × Middleware))
    (res : SlopResponse), (errorScanRef e l res).2.2 = none →
    (errorScanRef e l res).1.body ≠ none := by
  intro l
  induction l with
  | nil => intro res h; simp [errorScanRef] at h
  | cons q rest ih =>
    intro res h
    obtain ⟨i, eh⟩ := q
    simp only [errorScanRef] at h ⊢
    cases hE : runEProg eh.handler res with
    | mk res1 exc =>
      rw [hE] at h
      cases exc with
      | some ex => exact Option.noConfusion h
      | none =>
        cases hb : res1.body with
        | some b => simp [hb]
        | none =>
          simp only [hb] at h
          simp only [hb]
          exact ih res1 h

theorem runErrorScan_nomatch (path e : String) : ∀ (ehs : List Middleware)
    (i0 : Nat) (st : DState),
    (∀ eh ∈ ehs, errMatches eh.path path = false) →
    runErrorScan path e i0 ehs st = (st, some e) := by
  intro ehs
  induction ehs with
  | nil => intro i0 st h; rfl
  | cons eh rest ih =>
    intro i0 st h
    simp only [runErrorScan]
    rw [if_neg (by simp [h eh (List.mem_cons_self _ _)])]
    exact ih (i0 + 1) st fun x hx => h x (List.mem_cons_of_mem _ hx)

/-! ## One-step reduction lemmas for the continuation -/

theorem nextFuel_zero (ctx : Ctx) (eo : Option String) (st : DState) :
    nextFuel ctx 0 eo st = .out st := rfl

theorem nextFuel_none_noRoute (ctx : Ctx) (f : Nat) (st : DState)
    (h : findRoute ctx.method ctx.path 0 ctx.app.routes = none) :
    nextFuel ctx (f + 1) none st = .ok st := by
  simp only [nextFuel]
  rw [h]

theorem nextFuel_none_route (ctx : Ctx) (f : Nat)
    (pa : List (String × String)) (re : SlopResponse) (ev : List Ev)
    (ri : Nat) (r : Route) (ps : List (String × String))
    (h : findRoute ctx.method ctx.path 0 ctx.app.routes = some (ri, r, ps)) :
    nextFuel ctx (f + 1) none ⟨pa, re, ev⟩ =
      runChain (runProgWith fun e st' => nextFuel ctx f e st') ri 0 r.handlers
        ⟨ps, re, ev ++ [Ev.routeMatched ri ps]⟩ := by
  simp only [nextFuel]
  rw [h]

theorem nextFuel_some (ctx : Ctx) (f : Nat) (e : String)
    (pa : List (String × String)) (re : SlopResponse) (ev : List Ev) :
    nextFuel ctx (f + 1) (some e) ⟨pa, re, ev⟩ =
      (match runErrorScan ctx.path e 0 ctx.app.errorHandlers
          ⟨pa, re, ev ++ [Ev.errSignaled e]⟩ with
       | (st', none) => RunRes.ok st'
       | (st', some e') => RunRes.thrown e' st') := by
  simp only [nextFuel]

/-! ## Benign runs keep the body null and never throw -/

theorem quiet_mono {st0 st1 : DState} {r : RunRes}
    (hsub : ∀ e, Ev.errSignaled e ∈ st1.evs → Ev.errSignaled e ∈ st0.evs)
    (h : r.quiet st1) : r.quiet st0 := by
  cases r with
  | ok st => exact ⟨h.1, fun e he => hsub e (h.2 e he)⟩
  | thrown e st => exact h
  | out st => trivial

theorem runProgWith_benign (nextFn : Option String → DState → RunRes)
    (Hnext : ∀ st1 : DState, st1.res.body = none →
      (nextFn none st1).quiet st1) :
    ∀ (p : HProg) (st : DState), benignProg p = true →
    st.res.body = none → (runProgWith nextFn p st).quiet st := by
  intro p
  induction p with
  | done => intro st hp hb; exact ⟨hb, fun e he => he⟩
  | setBody b k ih =>
    intro st hp hb
    simp only [benignProg, Bool.and_eq_true] at hp
    have hb' : b = none := by simpa using hp.1
    subst hb'
    exact quiet_mono (fun e he => he)
      (ih ⟨st.params, { st.res with body := none }, st.evs⟩ hp.2 rfl)
  | setStatus c k ih =>
    intro st hp hb
    simp only [benignProg] at hp
    exact quiet_mono (fun e he => he)
      (ih ⟨st.params, { st.res with statusCode := c }, st.evs⟩ hp hb)
  | setHeader n v k ih =>
    intro st hp hb
    simp only [benignProg] at hp
    exact quiet_mono (fun e he => he)
      (ih ⟨st.params, { st.res with headers := hset st.res.headers n v },
        st.evs⟩ hp hb)
  | callNext e k ih =>
    intro st hp hb
    simp only [benignProg, Bool.and_eq_true] at hp
    have he' : e = none := by simpa using hp.1
    subst he'
    cases hN : nextFn none st with
    | ok st' =>
      have hq := Hnext st hb
      rw [hN] at hq
      rw [runProgWith_callNext_ok nextFn none k st st' hN]
      exact quiet_mono hq.2 (ih st' hp.2 hq.1)
    | thrown ex st' =>
      have hq := Hnext st hb
      rw [hN] at hq
      exact hq.elim
    | out st' =>
      rw [runProgWith_callNext_abort nextFn none k st _ hN (by intro s; simp)]
      trivial
  | throwE ex => intro st hp hb; simp [benignProg] at hp

theorem runChain_benign (step : HProg → DState → RunRes)
    (Hstep : ∀ (h : HProg) (st1 : DState), benignProg h = true →
      st1.res.body = none → (step h st1).quiet st1) :
    ∀ (hs : List HProg) (ri hi : Nat) (st : DState),
    hs.all benignProg = true → st.res.body = none →
    (runChain step ri hi hs st).quiet st := by
  intro hs
  induction hs with
  | nil => intro ri hi st hall hb; exact ⟨hb, fun e he => he⟩
  | cons h rest ih =>
    intro ri hi st hall hb
    obtain ⟨pa, re, ev⟩ := st
    rw [List.all_cons, Bool.and_eq_true] at hall
    obtain ⟨hh, hrest⟩ := hall
    have hq := Hstep h ⟨pa, re, ev ++ [Ev.routeHandlerInvoked ri hi]⟩ hh hb
    cases hS : step h ⟨pa, re, ev ++ [Ev.routeHandlerInvoked ri hi]⟩ with
    | ok st2 =>
      rw [hS] at hq
      obtain ⟨pa2, re2, ev2⟩ := st2
      rw [runChain_cons_ok step ri hi h rest pa re ev pa2 re2 ev2 hS]
      have hb2 : re2.body = none := hq.1
      rw [hb2]
      exact quiet_mono
        (fun e he => sig_mem_append (by intro s; simp) (hq.2 e he))
        (ih ri (hi + 1) ⟨pa2, re2, ev2⟩ hrest hb2)
    | thrown ex st2 =>
      rw [hS] at hq
      exact hq.elim
    | out st2 =>
      rw [runChain_cons_abort step ri hi h rest pa re ev _ hS
        (by intro s; simp)]
      trivial

theorem runMwChain_benign (step : HProg → DState → RunRes) (path : String)
    (Hstep : ∀ (h : HProg) (st1 : DState), benignProg h = true →
      st1.res.body = none → (step h st1).quiet st1) :
    ∀ (mws : List Middleware) (i0 : Nat) (st : DState),
    mws.all (fun m => benignProg m.handler) = true → st.res.body = none →
    (runMwChain step path i0 mws st).quiet st := by
  intro mws
  induction mws with
  | nil => intro i0 st hall hb; exact ⟨hb, fun e he => he⟩
  | cons mw rest ih =>
    intro i0 st hall hb
    obtain ⟨pa, re, ev⟩ := st
    rw [List.all_cons, Bool.and_eq_true] at hall
    obtain ⟨hh, hrest⟩ := hall
    by_cases hm : prefMatches mw.path path = true
    · have hq := Hstep mw.handler ⟨pa, re, ev ++ [Ev.mwInvoked i0]⟩ hh hb
      cases hS : step mw.handler ⟨pa, re, ev ++ [Ev.mwInvoked i0]⟩ with
      | ok st2 =>
        rw [hS] at hq
        obtain ⟨pa2, re2, ev2⟩ := st2
        rw [runMwChain_cons_ok step path i0 mw rest pa re ev pa2 re2 ev2 hm hS]
        have hb2 : re2.body = none := hq.1
        rw [hb2]
        exact quiet_mono
          (fun e he => sig_mem_append (by intro s; simp) (hq.2 e he))
          (ih (i0 + 1) ⟨pa2, re2, ev2⟩ hrest hb2)
      | thrown ex st2 =>
        rw [hS] at hq
        exact hq.elim
      | out st2 =>
        rw [runMwChain_cons_abort step path i0 mw rest pa re ev _ hm hS
          (by intro s; simp)]
        trivial
    · rw [runMwChain_cons_skip step path i0 mw rest _ (bneF hm)]
      exact ih (i0 + 1) ⟨pa, re, ev⟩ hrest hb

theorem nextFuel_quiet (ctx : Ctx)
    (Hroutes : ∀ r ∈ ctx.app.routes, r.handlers.all benignProg = true) :
    ∀ (f : Nat) (st : DState), st.res.body = none →
    (nextFuel ctx f none st).quiet st := by
  intro f
  induction f with
  | zero => intro st hb; trivial
  | succ f ih =>
    intro st hb
    cases hf : findRoute ctx.method ctx.path 0 ctx.app.routes with
    | none =>
      rw [nextFuel_none_noRoute ctx f st hf]
      exact ⟨hb, fun e he => he⟩
    | some x =>
      obtain ⟨ri, r, ps⟩ := x
      obtain ⟨pa, re, ev⟩ := st
      rw [nextFuel_none_route ctx f pa re ev ri r ps hf]
      have hall := Hroutes r
        (findRoute_mem ctx.method ctx.path ctx.app.routes 0 ri r ps hf)
      exact quiet_mono
        (fun e he => sig_mem_append (by intro s; simp) he)
        (runChain_benign _
          (fun h st1 hbh hb1 =>
            runProgWith_benign _ (fun st2 hb2 => ih st2 hb2) h st1 hbh hb1)
          r.handlers ri 0 ⟨ps, re, ev ++ [Ev.routeMatched ri ps]⟩ hall hb)

theorem nextFuel_noRoute_quiet (ctx : Ctx)
    (h : findRoute ctx.method ctx.path 0 ctx.app.routes = none) :
    ∀ (f : Nat) (st : DState), st.res.body = none →
    (nextFuel ctx f none st).quiet st := by
  intro f st hb
  cases f with
  | zero => trivial
  | succ f =>
    rw [nextFuel_none_noRoute ctx f st h]
    exact ⟨hb, fun e he => he⟩

/-! ## Ok results record no error signal when no error handler matches -/

theorem runProgWith_oksig (nextFn : Option String → DState → RunRes)
    (Hnext : ∀ (eo : Option String) (st1 st2 : DState),
      nextFn eo st1 = .ok st2 → noNewSig st1 st2) :
    ∀ (p : HProg) (st st' : DState),
    runProgWith nextFn p st = .ok st' → noNewSig st st' := by
  intro p
  induction p with
  | done =>
    intro st st' h
    have h' : RunRes.ok st = RunRes.ok st' := h
    injection h' with h'
    subst h'
    exact fun e he => he
  | setBody b k ih =>
    intro st st' h
    exact ih ⟨st.params, { st.res with body := b }, st.evs⟩ st' h
  | setStatus c k ih =>
    intro st st' h
    exact ih ⟨st.params, { st.res with statusCode := c }, st.evs⟩ st' h
  | setHeader n v k ih =>
    intro st st' h
    exact ih ⟨st.params, { st.res with headers := hset st.res.headers n v },
      st.evs⟩ st' h
  | callNext e k ih =>
    intro st st' h
    cases hN : nextFn e st with
    | ok st1 =>
      rw [runProgWith_callNext_ok nextFn e k st st1 hN] at h
      exact fun e' he => Hnext e st st1 hN e' (ih st1 st' h e' he)
    | thrown ex st1 =>
      rw [runProgWith_callNext_abort nextFn e k st _ hN (by intro s; simp)]
        at h
      exact RunRes.noConfusion h
    | out st1 =>
      rw [runProgWith_callNext_abort nextFn e k st _ hN (by intro s; simp)]
        at h
      exact RunRes.noConfusion h
  | throwE ex =>
    intro st st' h
    exact RunRes.noConfusion h

theorem runChain_oksig (step : HProg → DState → RunRes)
    (Hstep : ∀ (h : HProg) (st1 st2 : DState), step h st1 = .ok st2 →
      noNewSig st1 st2) :
    ∀ (hs : List HProg) (ri hi : Nat) (st st' : DState),
    runChain step ri hi hs st = .ok st' → noNewSig st st' := by
  intro hs
  induction hs with
  | nil =>
    intro ri hi st st' h
    simp only [runChain] at h
    injection h with h
    subst h
    exact fun e he => he
  | cons h rest ih =>
    intro ri hi st st' hrun
    obtain ⟨pa, re, ev⟩ := st
    cases hS : step h ⟨pa, re, ev ++ [Ev.routeHandlerInvoked ri hi]⟩ with
    | ok st2 =>
      obtain ⟨pa2, re2, ev2⟩ := st2
      rw [runChain_cons_ok step ri hi h rest pa re ev pa2 re2 ev2 hS] at hrun
      have hsig1 := Hstep h _ _ hS
      cases hb : re2.body with
      | some b =>
        rw [hb] at hrun
        have h' : RunRes.ok (⟨pa2, re2, ev2⟩ : DState) = RunRes.ok st' := hrun
        injection h' with h'
        subst h'
        exact fun e he => sig_mem_append (by intro s; simp) (hsig1 e he)
      | none =>
        rw [hb] at hrun
        have hrec := ih ri (hi + 1) ⟨pa2, re2, ev2⟩ st' hrun
        exact fun e he =>
          sig_mem_append (by intro s; simp) (hsig1 e (hrec e he))
    | thrown ex st2 =>
      rw [runChain_cons_abort step ri hi h rest pa re ev _ hS
        (by intro s; simp)] at hrun
      exact RunRes.noConfusion hrun
    | out st2 =>
      rw [runChain_cons_abort step ri hi h rest pa re ev _ hS
        (by intro s; simp)] at hrun
      exact RunRes.noConfusion hrun

theorem runMwChain_oksig (step : HProg → DState → RunRes) (path : String)
    (Hstep : ∀ (h : HProg) (st1 st2 : DState), step h st1 = .ok st2 →
      noNewSig st1 st2) :
    ∀ (mws : List Middleware) (i0 : Nat) (st st' : DState),
    runMwChain step path i0 mws st = .ok st' → noNewSig st st' := by
  intro mws
  induction mws with
  | nil =>
    intro i0 st st' h
    simp only [runMwChain] at h
    injection h with h
    subst h
    exact fun e he => he
  | cons mw rest ih =>
    intro i0 st st' hrun
    obtain ⟨pa, re, ev⟩ := st
    by_cases hm : prefMatches mw.path path = true
    · cases hS : step mw.handler ⟨pa, re, ev ++ [Ev.mwInvoked i0]⟩ with
      | ok st2 =>
        obtain ⟨pa2, re2, ev2⟩ := st2
        rw [runMwChain_cons_ok step path i0 mw rest pa re ev pa2 re2 ev2
          hm hS] at hrun
        have hsig1 := Hstep mw.handler _ _ hS
        cases hb : re2.body with
        | some b =>
          rw [hb] at hrun
          have h' : RunRes.ok (⟨pa2, re2, ev2⟩ : DState) =
              RunRes.ok st' := hrun
          injection h' with h'
          subst h'
          exact fun e he => sig_mem_append (by intro s; simp) (hsig1 e he)
        | none =>
          rw [hb] at hrun
          have hrec := ih (i0 + 1) ⟨pa2, re2, ev2⟩ st' hrun
          exact fun e he =>
            sig_mem_append (by intro s; simp) (hsig1 e (hrec e he))
      | thrown ex st2 =>
        rw [runMwChain_cons_abort step path i0 mw rest pa re ev _ hm hS
          (by intro s; simp)] at hrun
        exact RunRes.noConfusion hrun
      | out st2 =>
        rw [runMwChain_cons_abort step path i0 mw rest pa re ev _ hm hS
          (by intro s; simp)] at hrun
        exact RunRes.noConfusion hrun
    · rw [runMwChain_cons_skip step path i0 mw rest _ (bneF hm)] at hrun
      exact ih (i0 + 1) ⟨pa, re, ev⟩ st' hrun

theorem nextFuel_oksig (ctx : Ctx)
    (H : ∀ eh ∈ ctx.app.errorHandlers, errMatches eh.path ctx.path = false) :
    ∀ (f : Nat) (eo : Option String) (st st' : DState),
    nextFuel ctx f eo st = .ok st' → noNewSig st st' := by
  intro f
  induction f with
  | zero =>
    intro eo st st' h
    exact RunRes.noConfusion h
  | succ f ih =>
    intro eo st st' h
    cases eo with
    | some e =>
      obtain ⟨pa, re, ev⟩ := st
      rw [nextFuel_some ctx f e pa re ev,
        runErrorScan_nomatch ctx.path e ctx.app.errorHandlers 0 _ H] at h
      exact RunRes.noConfusion h
    | none =>
      cases hf : findRoute ctx.method ctx.path 0 ctx.app.routes with
      | none =>
        rw [nextFuel_none_noRoute ctx f st hf] at h
        injection h with h
        subst h
        exact fun e he => he
      | some x =>
        obtain ⟨ri, r, ps⟩ := x
        obtain ⟨pa, re, ev⟩ := st
        rw [nextFuel_none_route ctx f pa re ev ri r ps hf] at h
        have hrec := runChain_oksig _
          (fun hh st1 st2 hS =>
            runProgWith_oksig _ (fun eo' s1 s2 hN => ih eo' s1 s2 hN)
              hh st1 st2 hS)
          r.handlers ri 0 _ st' h
        exact fun e he => sig_mem_append (by intro s; simp) (hrec e he)

/-! ## Dispatch-boundary reduction lemmas -/

theorem handleRequest_ok (app : Slop) (fuel : Nat) (m p : String)
    (pa : List (String × String)) (re : SlopResponse) (ev : List Ev)
    (h : runMwChain (stepAt ⟨app, m, p⟩ fuel) p 0 app.middleware initSt =
      RunRes.ok ⟨pa, re, ev⟩) :
    app.handleRequest fuel m p =
      (match re.body with
       | none => finalize (nextFuel ⟨app, m, p⟩ fuel none ⟨pa, re, ev⟩)
       | some _ => finalize (RunRes.ok ⟨pa, re, ev⟩)) := by
  simp only [Slop.handleRequest]
  rw [h]

theorem handleRequest_abort (app : Slop) (fuel : Nat) (m p : String)
    (r : RunRes)
    (h : runMwChain (stepAt ⟨app, m, p⟩ fuel) p 0 app.middleware initSt = r)
    (hr : ∀ st', r ≠ RunRes.ok st') :
    app.handleRequest fuel m p = finalize r := by
  simp only [Slop.handleRequest]
  rw [h]
  cases r with
  | ok st' => exact absurd rfl (hr st')
  | thrown e st' => rfl
  | out st' => rfl

/-! ## Never-responding programs: unhandled errors abort to the boundary -/

theorem runEProg_neverBody : ∀ (p : HProg) (res : SlopResponse),
    neverBody p = true → res.body = none →
    (runEProg p res).1.body = none := by
  intro p
  induction p with
  | done => intro res hp hb; exact hb
  | setBody b k ih =>
    intro res hp hb
    simp only [neverBody, Bool.and_eq_true] at hp
    have hb' : b = none := by simpa using hp.1
    subst hb'
    exact ih { res with body := none } hp.2 rfl
  | setStatus c k ih =>
    intro res hp hb
    simp only [neverBody] at hp
    exact ih { res with statusCode := c } hp hb
  | setHeader n v k ih =>
    intro res hp hb
    simp only [neverBody] at hp
    exact ih { res with headers := hset res.headers n v } hp hb
  | callNext e k ih =>
    intro res hp hb
    simp only [neverBody] at hp
    exact ih res hp hb
  | throwE ex => intro res hp hb; exact hb

theorem runErrorScan_neverBody (path e : String) : ∀ (ehs : List Middleware)
    (i0 : Nat) (st : DState),
    (∀ eh ∈ ehs, neverBody eh.handler = true) → st.res.body = none →
    (runErrorScan path e i0 ehs st).2 ≠ none := by
  intro ehs
  induction ehs with
  | nil => intro i0 st h hb; simp [runErrorScan]
  | cons eh rest ih =>
    intro i0 st h hb
    obtain ⟨pa, re, ev⟩ := st
    simp only [runErrorScan]
    by_cases hm : errMatches eh.path path = true
    · rw [if_pos hm]
      cases hE : runEProg eh.handler re with
      | mk res1 exc =>
        cases exc with
        | some ex => simp
        | none =>
          have hn : res1.body = none := by
            have hx := runEProg_neverBody eh.handler re
              (h eh (List.mem_cons_self _ _)) hb
            rw [hE] at hx
            exact hx
          simp only [hn]
          exact ih (i0 + 1) ⟨pa, res1, ev ++ [Ev.errInvoked i0 e]⟩
            (fun x hx => h x (List.mem_cons_of_mem _ hx)) hn
    · rw [if_neg hm]
      exact ih (i0 + 1) ⟨pa, re, ev⟩
        (fun x hx => h x (List.mem_cons_of_mem _ hx)) hb

theorem silentOk_mono {st0 st1 : DState} {r : RunRes}
    (hsub : ∀ e, Ev.errSignaled e ∈ st1.evs → Ev.errSignaled e ∈ st0.evs)
    (h : r.silentOk st1) : r.silentOk st0 := by
  cases r with
  | ok st => exact ⟨h.1, fun e he => hsub e (h.2 e he)⟩
  | thrown e st => trivial
  | out st => trivial

theorem runProgWith_silent (nextFn : Option String → DState → RunRes)
    (Hnext : ∀ (eo : Option String) (st1 : DState), st1.res.body = none →
      (nextFn eo st1).silentOk st1) :
    ∀ (p : HProg) (st : DState), neverBody p = true →
    st.res.body = none → (runProgWith nextFn p st).silentOk st := by
  intro p
  induction p with
  | done => intro st hp hb; exact ⟨hb, fun e he => he⟩
  | setBody b k ih =>
    intro st hp hb
    simp only [neverBody, Bool.and_eq_true] at hp
    have hb' : b = none := by simpa using hp.1
    subst hb'
    exact silentOk_mono (fun e he => he)
      (ih ⟨st.params, { st.res with body := none }, st.evs⟩ hp.2 rfl)
  | setStatus c k ih =>
    intro st hp hb
    simp only [neverBody] at hp
    exact silentOk_mono (fun e he => he)
      (ih ⟨st.params, { st.res with statusCode := c }, st.evs⟩ hp hb)
  | setHeader n v k ih =>
    intro st hp hb
    simp only [neverBody] at hp
    exact silentOk_mono (fun e he => he)
      (ih ⟨st.params, { st.res with headers := hset st.res.headers n v },
        st.evs⟩ hp hb)
  | callNext e k ih =>
    intro st hp hb
    simp only [neverBody] at hp
    cases hN : nextFn e st with
    | ok st' =>
      have hq := Hnext e st hb
      rw [hN] at hq
      rw [runProgWith_callNext_ok nextFn e k st st' hN]
      exact silentOk_mono hq.2 (ih st' hp hq.1)
    | thrown ex st' =>
      rw [runProgWith_callNext_abort nextFn e k st _ hN (by intro s; simp)]
      trivial
    | out st' =>
      rw [runProgWith_callNext_abort nextFn e k st _ hN (by intro s; simp)]
      trivial
  | throwE ex => intro st hp hb; trivial

theorem runChain_silent (step : HProg → DState → RunRes)
    (Hstep : ∀ (h : HProg) (st1 : DState), neverBody h = true →
      st1.res.body = none → (step h st1).silentOk st1) :
    ∀ (hs : List HProg) (ri hi : Nat) (st : DState),
    hs.all neverBody = true → st.res.body = none →
    (runChain step ri hi hs st).silentOk st := by
  intro hs
  induction hs with
  | nil => intro ri hi st hall hb; exact ⟨hb, fun e he => he⟩
  | cons h rest ih =>
    intro ri hi st hall hb
    obtain ⟨pa, re, ev⟩ := st
    rw [List.all_cons, Bool.and_eq_true] at hall
    obtain ⟨hh, hrest⟩ := hall
    have hq := Hstep h ⟨pa, re, ev ++ [Ev.routeHandlerInvoked ri hi]⟩ hh hb
    cases hS : step h ⟨pa, re, ev ++ [Ev.routeHandlerInvoked ri hi]⟩ with
    | ok st2 =>
      rw [hS] at hq
      obtain ⟨pa2, re2, ev2⟩ := st2
      rw [runChain_cons_ok step ri hi h rest pa re ev pa2 re2 ev2 hS]
      have hb2 : re2.body = none := hq.1
      rw [hb2]
      exact silentOk_mono
        (fun e he => sig_mem_append (by intro s; simp) (hq.2 e he))
        (ih ri (hi + 1) ⟨pa2, re2, ev2⟩ hrest hb2)
    | thrown ex st2 =>
      rw [runChain_cons_abort step ri hi h rest pa re ev _ hS
        (by intro s; simp)]
      trivial
    | out st2 =>
      rw [runChain_cons_abort step ri hi h rest pa re ev _ hS
        (by intro s; simp)]
      trivial

theorem runMwChain_silent (step : HProg → DState → RunRes) (path : String)
    (Hstep : ∀ (h : HProg) (st1 : DState), neverBody h = true →
      st1.res.body = none → (step h st1).silentOk st1) :
    ∀ (mws : List Middleware) (i0 : Nat) (st : DState),
    mws.all (fun m => neverBody m.handler) = true → st.res.body = none →
    (runMwChain step path i0 mws st).silentOk st := by
  intro mws
  induction mws with
  | nil => intro i0 st hall hb; exact ⟨hb, fun e he => he⟩
  | cons mw rest ih =>
    intro i0 st hall hb
    obtain ⟨pa, re, ev⟩ := st
    rw [List.all_cons, Bool.and_eq_true] at hall
    obtain ⟨hh, hrest⟩ := hall
    by_cases hm : prefMatches mw.path path = true
    · have hq := Hstep mw.handler ⟨pa, re, ev ++ [Ev.mwInvoked i0]⟩ hh hb
      cases hS : step mw.handler ⟨pa, re, ev ++ [Ev.mwInvoked i0]⟩ with
      | ok st2 =>
        rw [hS] at hq
        obtain ⟨pa2, re2, ev2⟩ := st2
        rw [runMwChain_cons_ok step path i0 mw rest pa re ev pa2 re2 ev2 hm hS]
        have hb2 : re2.body = none := hq.1
        rw [hb2]
        exact silentOk_mono
          (fun e he => sig_mem_append (by intro s; simp) (hq.2 e he))
          (ih (i0 + 1) ⟨pa2, re2, ev2⟩ hrest hb2)
      | thrown ex st2 =>
        rw [runMwChain_cons_abort step path i0 mw rest pa re ev _ hm hS
          (by intro s; simp)]
        trivial
      | out st2 =>
        rw [runMwChain_cons_abort step path i0 mw rest pa re ev _ hm hS
          (by intro s; simp)]
        trivial
    · rw [runMwChain_cons_skip step path i0 mw rest _ (bneF hm)]
      exact ih (i0 + 1) ⟨pa, re, ev⟩ hrest hb

theorem nextFuel_silent (ctx : Ctx)
    (Hroutes : ∀ r ∈ ctx.app.routes, r.handlers.all neverBody = true)
    (Heh : ∀ eh ∈ ctx.app.errorHandlers, neverBody eh.handler = true) :
    ∀ (f : Nat) (eo : Option String) (st : DState), st.res.body = none →
    (nextFuel ctx f eo st).silentOk st := by
  intro f
  induction f with
  | zero => intro eo st hb; trivial
  | succ f ih =>
    intro eo st hb
    cases eo with
    | some e =>
      obtain ⟨pa, re, ev⟩ := st
      rw [nextFuel_some ctx f e pa re ev]
      cases hscan : runErrorScan ctx.path e 0 ctx.app.errorHandlers
          ⟨pa, re, ev ++ [Ev.errSignaled e]⟩ with
      | mk st2 exo =>
        cases exo with
        | none =>
          exfalso
          have hne := runErrorScan_neverBody ctx.path e ctx.app.errorHandlers
            0 ⟨pa, re, ev ++ [Ev.errSignaled e]⟩ Heh hb
          rw [hscan] at hne
          exact hne rfl
        | some ex => trivial
    | none =>
      cases hf : findRoute ctx.method ctx.path 0 ctx.app.routes with
      | none =>
        rw [nextFuel_none_noRoute ctx f st hf]
        exact ⟨hb, fun e he => he⟩
      | some x =>
        obtain ⟨ri, r, ps⟩ := x
        obtain ⟨pa, re, ev⟩ := st
        rw [nextFuel_none_route ctx f pa re ev ri r ps hf]
        have hall := Hroutes r
          (findRoute_mem ctx.method ctx.path ctx.app.routes 0 ri r ps hf)
        exact silentOk_mono
          (fun e he => sig_mem_append (by intro s; simp) he)
          (runChain_silent _
            (fun h st1 hbh hb1 =>
              runProgWith_silent _ (fun eo' st2 hb2 => ih eo' st2 hb2)
                h st1 hbh hb1)
            r.handlers ri 0 ⟨ps, re, ev ++ [Ev.routeMatched ri ps]⟩ hall hb)

/-! ## The two unhandled-error boundary lemmas behind C3 -/

theorem err_unmatched_500 (app : Slop) (fuel : Nat) (m p : String)
    (resp : FinalResp) (tr : List Ev) (e : String)
    (hno : app.errorHandlers.all (fun eh => !(errMatches eh.path p)) = true)
    (hrun : app.handleRequest fuel m p = some (resp, tr))
    (hsig : Ev.errSignaled e ∈ tr) :
    resp = internalErrorResp := by
  have H : ∀ eh ∈ app.errorHandlers, errMatches eh.path p = false := by
    intro eh heh
    have := List.all_eq_true.1 hno eh heh
    simpa using this
  have Hstep : ∀ (hh : HProg) (st1 st2 : DState),
      stepAt ⟨app, m, p⟩ fuel hh st1 = RunRes.ok st2 → noNewSig st1 st2 :=
    fun hh st1 st2 hS =>
      runProgWith_oksig (fun e' st' => nextFuel ⟨app, m, p⟩ fuel e' st')
        (fun eo s1 s2 hN => nextFuel_oksig ⟨app, m, p⟩ H fuel eo s1 s2 hN)
        hh st1 st2 hS
  cases hmwres : runMwChain (stepAt ⟨app, m, p⟩ fuel) p 0 app.middleware
      initSt with
  | ok st =>
    obtain ⟨pa, re, ev⟩ := st
    have hsub := runMwChain_oksig (stepAt ⟨app, m, p⟩ fuel) p Hstep
      app.middleware 0 initSt ⟨pa, re, ev⟩ hmwres
    rw [handleRequest_ok app fuel m p pa re ev hmwres] at hrun
    cases hb : re.body with
    | some b =>
      rw [hb] at hrun
      exfalso
      simp only [finalize] at hrun
      simp only [hb] at hrun
      simp only [Option.some.injEq, Prod.mk.injEq] at hrun
      obtain ⟨h1, h2⟩ := hrun
      subst h2
      have hx := hsub e hsig
      simp [initSt] at hx
    | none =>
      rw [hb] at hrun
      cases hnf : nextFuel ⟨app, m, p⟩ fuel none ⟨pa, re, ev⟩ with
      | ok st' =>
        obtain ⟨pa2, re2, ev2⟩ := st'
        rw [hnf] at hrun
        exfalso
        have hsub2 := nextFuel_oksig ⟨app, m, p⟩ H fuel none ⟨pa, re, ev⟩
          ⟨pa2, re2, ev2⟩ hnf
        simp only [finalize] at hrun
        cases hb2 : re2.body with
        | some b2 =>
          simp only [hb2] at hrun
          simp only [Option.some.injEq, Prod.mk.injEq] at hrun
          obtain ⟨h1, h2⟩ := hrun
          subst h2
          have hx := hsub e (hsub2 e hsig)
          simp [initSt] at hx
        | none =>
          simp only [hb2] at hrun
          simp only [Option.some.injEq, Prod.mk.injEq] at hrun
          obtain ⟨h1, h2⟩ := hrun
          subst h2
          have hx := hsub e (hsub2 e hsig)
          simp [initSt] at hx
      | thrown e2 st' =>
        rw [hnf] at hrun
        simp only [finalize, Option.some.injEq, Prod.mk.injEq] at hrun
        exact hrun.1.symm
      | out st' =>
        rw [hnf] at hrun
        exact Option.noConfusion hrun
  | thrown e2 st =>
    rw [handleRequest_abort app fuel m p _ hmwres (by intro s; simp)] at hrun
    simp only [finalize, Option.some.injEq, Prod.mk.injEq] at hrun
    exact hrun.1.symm
  | out st =>
    rw [handleRequest_abort app fuel m p _ hmwres (by intro s; simp)] at hrun
    exact Option.noConfusion hrun

theorem err_neverBody_500 (app : Slop) (fuel : Nat) (m p : String)
    (resp : FinalResp) (tr : List Ev) (e : String)
    (hmw : app.middleware.all (fun x => neverBody x.handler) = true)
    (hrt : app.routes.all (fun r => r.handlers.all neverBody) = true)
    (heh : app.errorHandlers.all (fun x => neverBody x.handler) = true)
    (hrun : app.handleRequest fuel m p = some (resp, tr))
    (hsig : Ev.errSignaled e ∈ tr) :
    resp = internalErrorResp := by
  have Hroutes : ∀ r ∈ app.routes, r.handlers.all neverBody = true :=
    fun r hr => List.all_eq_true.1 hrt r hr
  have Heh : ∀ eh ∈ app.errorHandlers, neverBody eh.handler = true :=
    fun x hx => List.all_eq_true.1 heh x hx
  have hsil := runMwChain_silent (stepAt ⟨app, m, p⟩ fuel) p
    (fun h st1 hbh hb1 =>
      runProgWith_silent (fun e' st' => nextFuel ⟨app, m, p⟩ fuel e' st')
        (fun eo st2 hb2 => nextFuel_silent ⟨app, m, p⟩ Hroutes Heh fuel eo
          st2 hb2)
        h st1 hbh hb1)
    app.middleware 0 initSt hmw rfl
  cases hmwres : runMwChain (stepAt ⟨app, m, p⟩ fuel) p 0 app.middleware
      initSt with
  | ok st =>
    rw [hmwres] at hsil
    obtain ⟨pa, re, ev⟩ := st
    have hb : re.body = none := hsil.1
    rw [handleRequest_ok app fuel m p pa re ev hmwres, hb] at hrun
    have hq2 := nextFuel_silent ⟨app, m, p⟩ Hroutes Heh fuel none
      ⟨pa, re, ev⟩ hb
    cases hnf : nextFuel ⟨app, m, p⟩ fuel none ⟨pa, re, ev⟩ with
    | ok st' =>
      rw [hnf] at hrun hq2
      obtain ⟨pa2, re2, ev2⟩ := st'
      exfalso
      have hb2 : re2.body = none := hq2.1
      simp only [finalize] at hrun
      simp only [hb2] at hrun
      simp only [Option.some.injEq, Prod.mk.injEq] at hrun
      obtain ⟨h1, h2⟩ := hrun
      subst h2
      have hx := hsil.2 e (hq2.2 e hsig)
      simp [initSt] at hx
    | thrown e2 st' =>
      rw [hnf] at hrun
      simp only [finalize, Option.some.injEq, Prod.mk.injEq] at hrun
      exact hrun.1.symm
    | out st' =>
      rw [hnf] at hrun
      exact Option.noConfusion hrun
  | thrown e2 st =>
    rw [handleRequest_abort app fuel m p _ hmwres (by intro s; simp)] at hrun
    simp only [finalize, Option.some.injEq, Prod.mk.injEq] at hrun
    exact hrun.1.symm
  | out st =>
    rw [handleRequest_abort app fuel m p _ hmwres (by intro s; simp)] at hrun
    exact Option.noConfusion hrun

end Helpers


/-! # The claims -/

/-- C4: `matchPath` implements the four-step reference algorithm: exact
string equality succeeds with no parameters; differing segment counts
fail; with equal counts a match holds exactly when every route segment
is a `:`-parameter or equals the actual segment literally
(case-sensitive); a literal mismatch returns no match with an empty
parameter map; and the two concrete examples from the spec hold. -/
theorem c4_theorem :
    (∀ p : String, matchPath p p = ⟨true, []⟩) ∧
    (∀ a r : String, (splitSlash r).length ≠ (splitSlash a).length →
      matchPath a r = ⟨false, []⟩) ∧
    (∀ a r : String, (splitSlash r).length = (splitSlash a).length →
      ((matchPath a r).matched = true ↔
        ∀ pr ∈ (splitSlash r).zip (splitSlash a),
          strStarts pr.1 ":" = true ∨ pr.1 = pr.2)) ∧
    (∀ (a r : String) (pr : String × String),
      (splitSlash r).length = (splitSlash a).length →
      pr ∈ (splitSlash r).zip (splitSlash a) → strStarts pr.1 ":" = false →
      pr.1 ≠ pr.2 → matchPath a r = ⟨false, []⟩) ∧
    matchPath "/users/42" "/users/:id" = ⟨true, [("id", "42")]⟩ ∧
    matchPath "/users/42/profile" "/users/:id" = ⟨false, []⟩ := by
  refine ⟨matchPath_eq_self, ?_, ?_, ?_, by decide, by decide⟩
  · intro a r hlen
    by_cases he : (r == a) = true
    · exact absurd (by rw [eq_of_beq he]) hlen
    · rw [matchPath, if_neg (by simp [bneF he]), if_pos hlen]
  · intro a r hlen
    by_cases he : (r == a) = true
    · rw [eq_of_beq he] at hlen ⊢
      have h1 : matchPath a a = ⟨true, []⟩ := matchPath_eq_self a
      rw [h1]
      have h2 : ∀ pr ∈ (splitSlash a).zip (splitSlash a),
          strStarts pr.1 ":" = true ∨ pr.1 = pr.2 :=
        fun pr hpr => Or.inr (mem_zip_self hpr)
      exact iff_of_true rfl h2
    · rw [matchPath_not_eq (bneF he) hlen]
      exact matchSegs_matched_iff _ _ [] hlen
  · intro a r pr hlen hmem h1 h2
    by_cases he : (r == a) = true
    · exact absurd (mem_zip_self (by rw [eq_of_beq he] at hmem; exact hmem))
        h2
    · rw [matchPath_not_eq (bneF he) hlen]
      apply matchSegs_false_shape
      have hnot : ¬(matchSegs (splitSlash r) (splitSlash a) []).matched =
          true := by
        rw [matchSegs_matched_iff _ _ [] hlen]
        intro hall
        rcases hall pr hmem with h' | h'
        · rw [h'] at h1
          cases h1
        · exact h2 h'
      exact bneF hnot

/-- C4 witness: the segment-count rule at a concrete input. -/
theorem c4_witness : matchPath "/a" "/a/b" = ⟨false, []⟩ :=
  c4_theorem.2.1 "/a" "/a/b" (by decide)

/-- C9 counterexample: the claim fails on the string-equality fast path.
For the pattern `/:a/:a` and the actual path `/:a/:a` (equal strings,
matching segment counts, duplicate parameter name `a` whose rightmost
occurrence is segment 2), `matchPath` succeeds but binds nothing: the
parameter map is empty instead of binding `a` to the rightmost actual
segment `":a"`. -/
theorem c9_counterexample :
    matchPath "/:a/:a" "/:a/:a" = ⟨true, []⟩ ∧
    getParam (matchPath "/:a/:a" "/:a/:a").params "a" = none ∧
    lastParamIdx (splitSlash "/:a/:a") "a" = some 2 ∧
    (splitSlash "/:a/:a").get? 2 = some ":a" := by decide

/-- C9 (amended): when the actual path is not string-equal to the
pattern (so the fast path does not apply) and the match succeeds, a
duplicated parameter name is bound to the actual segment at the
rightmost pattern position carrying that name, silently overwriting
earlier bindings; `lastParamIdx` provably computes that rightmost
position. -/
theorem c9_theorem :
    (∀ (rs : List String) (name : String) (i : Nat),
      lastParamIdx rs name = some i ↔
        ((∃ s, rs.get? i = some s ∧ strStarts s ":" = true ∧
          strTail s = name) ∧
         ∀ j s', i < j → rs.get? j = some s' → strStarts s' ":" = true →
           strTail s' ≠ name)) ∧
    (∀ (actual route name : String) (i : Nat),
      (route == actual) = false → (matchPath actual route).matched = true →
      lastParamIdx (splitSlash route) name = some i →
      getParam (matchPath actual route).params name =
        (splitSlash actual).get? i) := by
  constructor
  · intro rs name i
    constructor
    · intro h
      exact ⟨lastParamIdx_some_occ rs name i h,
        lastParamIdx_some_last rs name i h⟩
    · intro ⟨⟨s, hg, hs, hn⟩, hlast⟩
      exact lastParamIdx_last_some rs name i s hg hs hn hlast
  · intro a r name i he hm hl
    have hlen := matchPath_lengths hm
    rw [matchPath_not_eq he hlen] at hm ⊢
    have hshape : matchSegs (splitSlash r) (splitSlash a) [] =
        ⟨true, (matchSegs (splitSlash r) (splitSlash a) []).params⟩ := by
      cases hmm : matchSegs (splitSlash r) (splitSlash a) [] with
      | mk mt ps =>
        rw [hmm] at hm
        have : mt = true := hm
        rw [this]
    have := matchSegs_params (splitSlash r) (splitSlash a) []
      (matchSegs (splitSlash r) (splitSlash a) []).params hshape name
    rw [this, hl]

/-- C9 witness: `/:a/:a` against `/x/y` binds `a` to the rightmost
actual segment. -/
theorem c9_witness :
    getParam (matchPath "/x/y" "/:a/:a").params "a" =
      (splitSlash "/x/y").get? 2 :=
  c9_theorem.2 "/x/y" "/:a/:a" "a" 2 (by decide) (by decide) (by decide)

/-- C7: `useRouter` appends a prefix-rewritten copy of every route and
middleware entry of the child to the parent, in the child's order; the
error handlers are untouched; the prefix `"/"` leaves paths unchanged;
mounting is a snapshot, so a route added to the child afterwards is not
in the earlier mount's result; and mounting a child with `GET /ping` at
`/api` yields exactly `GET /api/ping`. -/
theorem c7_theorem :
    (∀ (parent child : Slop) (pre : String),
      (parent.useRouter pre child).routes =
        parent.routes ++ child.routes.map
          (fun r => { r with path := mountPath pre r.path }) ∧
      (parent.useRouter pre child).middleware =
        parent.middleware ++ child.middleware.map
          (fun x => { x with path := mountPath pre x.path }) ∧
      (parent.useRouter pre child).errorHandlers = parent.errorHandlers) ∧
    (∀ parent child : Slop,
      (parent.useRouter "/" child).routes = parent.routes ++ child.routes ∧
      (parent.useRouter "/" child).middleware =
        parent.middleware ++ child.middleware) ∧
    (∀ (parent child : Slop) (pre mth pth : String) (hs : List HProg),
      (parent.useRouter pre (child.addRoute mth pth hs)).routes =
        (parent.useRouter pre child).routes ++
          [⟨mth, mountPath pre pth, hs⟩]) ∧
    (∀ h : HProg,
      (Slop.empty.useRouter "/api" (Slop.empty.get "/ping" [h])).routes =
        [⟨"GET", "/api/ping", [h]⟩]) := by
  refine ⟨fun parent child pre => ⟨rfl, rfl, rfl⟩, ?_, ?_, ?_⟩
  · intro parent child
    have hmp : (fun r : Route => { r with path := mountPath "/" r.path }) =
        id := by
      funext r
      simp [mountPath]
    have hmp2 : (fun x : Middleware =>
        { x with path := mountPath "/" x.path }) = id := by
      funext x
      simp [mountPath]
    constructor
    · show parent.routes ++ child.routes.map _ = _
      rw [hmp, List.map_id]
    · show parent.middleware ++ child.middleware.map _ = _
      rw [hmp2, List.map_id]
  · intro parent child pre mth pth hs
    simp [Slop.useRouter, Slop.addRoute, List.map_append, List.append_assoc]
  · intro h
    rfl

/-- C5: the route scan picks the first registered route whose method
equals the request method and whose pattern matches the path, binds its
extracted parameters onto the request, and never picks a later route; a
scan returns nothing exactly when no route claims the request; and with
`/users/:id` registered before `/users/me`, `GET /users/me` is handled
by the parameterized route with `id = "me"`. -/
theorem c5_theorem :
    (∀ (m p : String) (rs : List Route) (i : Nat) (r : Route)
      (ps : List (String × String)),
      findRoute m p 0 rs = some (i, r, ps) →
      rs.get? i = some r ∧ routeHit m p r = true ∧
        ps = (matchPath p r.path).params ∧
        ∀ j r', j < i → rs.get? j = some r' → routeHit m p r' = false) ∧
    (∀ (m p : String) (rs : List Route),
      findRoute m p 0 rs = none ↔ ∀ r ∈ rs, routeHit m p r = false) ∧
    (∀ (ctx : Ctx) (f : Nat) (pa : List (String × String))
      (re : SlopResponse) (ev : List Ev) (ri : Nat) (r : Route)
      (ps : List (String × String)),
      findRoute ctx.method ctx.path 0 ctx.app.routes = some (ri, r, ps) →
      nextFuel ctx (f + 1) none ⟨pa, re, ev⟩ =
        runChain (runProgWith fun e st' => nextFuel ctx f e st') ri 0
          r.handlers ⟨ps, re, ev ++ [Ev.routeMatched ri ps]⟩) ∧
    exApp5.handleRequest 9 "GET" "/users/me" =
      some (⟨200, [], "byId"⟩,
        [Ev.routeMatched 0 [("id", "me")], Ev.routeHandlerInvoked 0 0]) := by
  exact ⟨findRoute_some_spec, findRoute_none_iff,
    fun ctx f pa re ev ri r ps h => nextFuel_none_route ctx f pa re ev ri r ps h,
    by decide⟩

/-- C5 witness: the scan for `GET /users/me` over the two registered
routes selects the parameterized route at index 0 with `id` bound to
`"me"`. -/
theorem c5_witness :
    exApp5.routes.get? 0 =
      some ⟨"GET", "/users/:id", [.setBody (some "byId") .done]⟩ ∧
    routeHit "GET" "/users/me"
      ⟨"GET", "/users/:id", [.setBody (some "byId") .done]⟩ = true := by
  have h := c5_theorem.1 "GET" "/users/me" exApp5.routes 0
    ⟨"GET", "/users/:id", [.setBody (some "byId") .done]⟩ [("id", "me")]
    (by decide)
  exact ⟨h.1, h.2.1⟩


/-- C1 counterexample: in `exApp1` the first (prefix-matching)
middleware sets the response body — the dispatch resolves with that
body — and yet the handler of the registered route is invoked during
the same dispatch, because the middleware also calls the continuation.
This contradicts the claim that once such a middleware sets the body no
route handler is ever invoked for that dispatch. -/
theorem c1_counterexample :
    exApp1.handleRequest 9 "GET" "/" =
      some (⟨201, [], "hi"⟩,
        [Ev.mwInvoked 0, Ev.routeMatched 0 [],
         Ev.routeHandlerInvoked 0 0]) ∧
    Ev.routeHandlerInvoked 0 0 ∈
      [Ev.mwInvoked 0, Ev.routeMatched 0 [], Ev.routeHandlerInvoked 0 0] ∧
    Ev.mwInvoked 1 ∉
      [Ev.mwInvoked 0, Ev.routeMatched 0 [], Ev.routeHandlerInvoked 0 0] := by
  decide

/-- C1 (amended): if the middleware entries before the responder never
invoke the continuation and leave the body null, and the responder's
prefix matches, it never invokes the continuation, and it leaves a
non-null body, then the dispatch resolves with the responder's
response, no later middleware entry is ever invoked, and no route
handler runs and no route is ever matched for that dispatch. -/
theorem c1_theorem (app : Slop) (fuel : Nat) (m p : String)
    (pre post : List Middleware) (mw : Middleware)
    (pa1 : List (String × String)) (re1 : SlopResponse) (ev1 : List Ev)
    (res2 : SlopResponse) (b : String)
    (hsplit : app.middleware = pre ++ mw :: post)
    (hnopre : pre.all (fun x => !(hasNext x.handler)) = true)
    (hnomw : hasNext mw.handler = false)
    (hpre : runMwChain (stepAt ⟨app, m, p⟩ fuel) p 0 pre initSt =
      RunRes.ok ⟨pa1, re1, ev1⟩)
    (hnull : re1.body = none)
    (hmatch : prefMatches mw.path p = true)
    (hrunE : runEProg mw.handler re1 = (res2, none))
    (hbody : res2.body = some b) :
    app.handleRequest fuel m p =
      some (⟨res2.statusCode, res2.headers, b⟩,
        ev1 ++ [Ev.mwInvoked pre.length]) ∧
    (∀ j, pre.length < j →
      Ev.mwInvoked j ∉ ev1 ++ [Ev.mwInvoked pre.length]) ∧
    (∀ ri hi,
      Ev.routeHandlerInvoked ri hi ∉ ev1 ++ [Ev.mwInvoked pre.length]) ∧
    (∀ ri ps, Ev.routeMatched ri ps ∉ ev1 ++ [Ev.mwInvoked pre.length]) := by
  have hstep : stepAt ⟨app, m, p⟩ fuel mw.handler
      ⟨pa1, re1, ev1 ++ [Ev.mwInvoked pre.length]⟩ =
      RunRes.ok ⟨pa1, res2, ev1 ++ [Ev.mwInvoked pre.length]⟩ := by
    show runProgWith _ mw.handler _ = _
    rw [runProgWith_pure_cm _ mw.handler pa1 re1 _ hnomw, hrunE]
  have hchain : runMwChain (stepAt ⟨app, m, p⟩ fuel) p 0 app.middleware
      initSt =
      RunRes.ok ⟨pa1, res2, ev1 ++ [Ev.mwInvoked pre.length]⟩ := by
    rw [hsplit,
      runMwChain_append_ok _ p pre (mw :: post) 0 initSt _ hpre hnull,
      Nat.zero_add,
      runMwChain_cons_ok _ p pre.length mw post pa1 re1 ev1 pa1 res2 _
        hmatch hstep, hbody]
  have hev := runMwChain_pure_evs (fun e st' => nextFuel ⟨app, m, p⟩ fuel e st')
    p pre 0 initSt ⟨pa1, re1, ev1⟩ hnopre hpre
  have hev1 : ∀ e ∈ ev1, ∃ j, j < pre.length ∧ e = Ev.mwInvoked j := by
    intro e he
    rcases hev.2 e he with h0 | ⟨j, _, hj2, hj3⟩
    · exact absurd h0 (List.not_mem_nil _)
    · exact ⟨j, by omega, hj3⟩
  refine ⟨?_, ?_, ?_, ?_⟩
  · rw [handleRequest_ok app fuel m p pa1 res2 _ hchain, hbody]
    simp only [finalize]
    simp only [hbody]
  · intro j hj hmem
    rcases List.mem_append.1 hmem with hm1 | hm1
    · obtain ⟨j', hj2, hj3⟩ := hev1 _ hm1
      injection hj3 with hj3
      omega
    · rw [List.mem_singleton] at hm1
      injection hm1 with hm1
      omega
  · intro ri hi hmem
    rcases List.mem_append.1 hmem with hm1 | hm1
    · obtain ⟨j', _, hj3⟩ := hev1 _ hm1
      exact Ev.noConfusion hj3
    · rw [List.mem_singleton] at hm1
      exact Ev.noConfusion hm1
  · intro ri ps hmem
    rcases List.mem_append.1 hmem with hm1 | hm1
    · obtain ⟨j', _, hj3⟩ := hev1 _ hm1
      exact Ev.noConfusion hj3
    · rw [List.mem_singleton] at hm1
      exact Ev.noConfusion hm1

/-- C1 witness: in `exApp1w` the first middleware responds without
calling the continuation, the later middleware never runs, and no route
handler is invoked. -/
theorem c1_witness :
    exApp1w.handleRequest 9 "GET" "/" =
      some (⟨200, [], "hi"⟩, [Ev.mwInvoked 0]) ∧
    Ev.mwInvoked 1 ∉ [Ev.mwInvoked 0] ∧
    Ev.routeHandlerInvoked 0 0 ∉ [Ev.mwInvoked 0] := by
  have h := c1_theorem exApp1w 9 "GET" "/" [] [⟨"*", .setStatus 9 .done⟩]
    ⟨"*", .setBody (some "hi") .done⟩ [] initRes [] ⟨200, [], some "hi"⟩ "hi"
    rfl (by decide) (by decide) rfl rfl (by decide) rfl rfl
  exact ⟨h.1, h.2.1 1 (by decide), h.2.2.1 0 0⟩

/-- C6 counterexample: in `exApp6` the first middleware neither invokes
the continuation nor sets a response body, yet the second middleware
and the route handler still run — the dispatch loops advance by
iteration, not via the continuation. -/
theorem c6_counterexample :
    exApp6.handleRequest 9 "GET" "/" =
      some (⟨7, [], "R"⟩,
        [Ev.mwInvoked 0, Ev.mwInvoked 1, Ev.routeMatched 0 [],
         Ev.routeHandlerInvoked 0 0]) ∧
    Ev.mwInvoked 1 ∈
      [Ev.mwInvoked 0, Ev.mwInvoked 1, Ev.routeMatched 0 [],
       Ev.routeHandlerInvoked 0 0] ∧
    Ev.routeHandlerInvoked 0 0 ∈
      [Ev.mwInvoked 0, Ev.mwInvoked 1, Ev.routeMatched 0 [],
       Ev.routeHandlerInvoked 0 0] := by
  decide

/-- C6 (amended): invoking the continuation is the only way a handler
itself transfers control (a handler that never calls it acts on the
response object alone); but the middleware sequence advances by
iteration — a middleware that neither calls the continuation nor sets a
body is simply followed by the next middleware — and the dispatcher
itself enters the route phase whenever the middleware loop ends with a
null body. -/
theorem c6_theorem :
    (∀ (nextFn : Option String → DState → RunRes) (prog : HProg)
      (st : DState), hasNext prog = false →
      runProgWith nextFn prog st =
        (match runEProg prog st.res with
         | (r, none) => RunRes.ok { st with res := r }
         | (r, some e) => RunRes.thrown e { st with res := r })) ∧
    (∀ (nextFn : Option String → DState → RunRes) (path : String)
      (i0 : Nat) (mw : Middleware) (rest : List Middleware)
      (pa : List (String × String)) (re res' : SlopResponse) (ev : List Ev),
      prefMatches mw.path path = true → hasNext mw.handler = false →
      runEProg mw.handler re = (res', none) → res'.body = none →
      runMwChain (runProgWith nextFn) path i0 (mw :: rest) ⟨pa, re, ev⟩ =
        runMwChain (runProgWith nextFn) path (i0 + 1) rest
          ⟨pa, res', ev ++ [Ev.mwInvoked i0]⟩) ∧
    (∀ (app : Slop) (fuel : Nat) (m p : String)
      (pa : List (String × String)) (re : SlopResponse) (ev : List Ev),
      runMwChain (stepAt ⟨app, m, p⟩ fuel) p 0 app.middleware initSt =
        RunRes.ok ⟨pa, re, ev⟩ → re.body = none →
      app.handleRequest fuel m p =
        finalize (nextFuel ⟨app, m, p⟩ fuel none ⟨pa, re, ev⟩)) := by
  refine ⟨fun nextFn prog st h => runProgWith_pure nextFn prog st h, ?_, ?_⟩
  · intro nextFn path i0 mw rest pa re res' ev hm hn hE hb
    have hstep : runProgWith nextFn mw.handler
        ⟨pa, re, ev ++ [Ev.mwInvoked i0]⟩ =
        RunRes.ok ⟨pa, res', ev ++ [Ev.mwInvoked i0]⟩ := by
      rw [runProgWith_pure_cm nextFn mw.handler pa re _ hn, hE]
    rw [runMwChain_cons_ok _ path i0 mw rest pa re ev pa res' _ hm hstep, hb]
  · intro app fuel m p pa re ev hrun hb
    rw [handleRequest_ok app fuel m p pa re ev hrun, hb]

/-- C6 witness: a do-nothing middleware is followed by the next
middleware entry. -/
theorem c6_witness :
    runMwChain (runProgWith fun _ st => RunRes.ok st) "/" 0
      [⟨"*", .done⟩, ⟨"*", .setStatus 7 .done⟩] initSt =
      runMwChain (runProgWith fun _ st => RunRes.ok st) "/" 1
        [⟨"*", .setStatus 7 .done⟩] ⟨[], initRes, [Ev.mwInvoked 0]⟩ :=
  c6_theorem.2.1 (fun _ st => RunRes.ok st) "/" 0 ⟨"*", .done⟩
    [⟨"*", .setStatus 7 .done⟩] [] initRes initRes [] (by decide) (by decide)
    rfl rfl


/-- C2 counterexample: in `exApp2` the middleware sets the body, then
signals `e1`, then calls the continuation normally.  The error scan
invokes only error handler 0 — which sets no body — and never reaches
the equally-matching error handler 1, contradicting "scanning stops at
the first error handler that sets a non-null response body"; and the
route handler runs after the error phase, contradicting "the normal
middleware/route chain never resumes". -/
theorem c2_counterexample :
    exApp2.handleRequest 9 "GET" "/" =
      some (⟨202, [], "B"⟩,
        [Ev.mwInvoked 0, Ev.errSignaled "e1", Ev.errInvoked 0 "e1",
         Ev.routeMatched 0 [], Ev.routeHandlerInvoked 0 0]) ∧
    errMatches "*" "/" = true ∧
    Ev.errInvoked 1 "e1" ∉
      [Ev.mwInvoked 0, Ev.errSignaled "e1", Ev.errInvoked 0 "e1",
       Ev.routeMatched 0 [], Ev.routeHandlerInvoked 0 0] ∧
    Ev.routeHandlerInvoked 0 0 ∈
      [Ev.mwInvoked 0, Ev.errSignaled "e1", Ev.errInvoked 0 "e1",
       Ev.routeMatched 0 [], Ev.routeHandlerInvoked 0 0] := by
  decide

/-- C2 (amended): each error signal scans exactly the error handlers
whose filter is `*` or a literal prefix of the request path, in
registration order, each invoked with a no-op continuation, stopping
after the first invocation that leaves the response body non-null (and
re-raising the error when the scan exhausts all matching handlers with
the body still null) — stated as equivalence with the reference scan
`errorScanRef` over the filtered, enumerated handler list; whenever the
scan returns normally the body is non-null; and the dispatcher itself
never resumes the chain: once an invocation returns with a non-null
body, the middleware loop, the route-handler loop, and the dispatcher
all stop and the dispatch resolves with that response. -/
theorem c2_theorem :
    (∀ (path e : String) (ehs : List Middleware) (i0 : Nat)
      (pa : List (String × String)) (re : SlopResponse) (ev : List Ev),
      runErrorScan path e i0 ehs ⟨pa, re, ev⟩ =
        (⟨pa,
          (errorScanRef e ((List.enumFrom i0 ehs).filter
            fun q => errMatches q.2.path path) re).1,
          ev ++ ((errorScanRef e ((List.enumFrom i0 ehs).filter
            fun q => errMatches q.2.path path) re).2.1).map
              (fun i => Ev.errInvoked i e)⟩,
         (errorScanRef e ((List.enumFrom i0 ehs).filter
            fun q => errMatches q.2.path path) re).2.2)) ∧
    (∀ (e : Option String) (k : HProg) (res : SlopResponse),
      runEProg (.callNext e k) res = runEProg k res) ∧
    (∀ (e : String) (l : List (Nat × Middleware)) (res : SlopResponse),
      (errorScanRef e l res).2.2 = none →
      (errorScanRef e l res).1.body ≠ none) ∧
    (∀ (step : HProg → DState → RunRes) (path : String) (i0 : Nat)
      (mw : Middleware) (rest : List Middleware)
      (pa : List (String × String)) (re : SlopResponse) (ev : List Ev)
      (pa2 : List (String × String)) (re2 : SlopResponse) (ev2 : List Ev)
      (b : String), prefMatches mw.path path = true →
      step mw.handler ⟨pa, re, ev ++ [Ev.mwInvoked i0]⟩ =
        RunRes.ok ⟨pa2, re2, ev2⟩ → re2.body = some b →
      runMwChain step path i0 (mw :: rest) ⟨pa, re, ev⟩ =
        RunRes.ok ⟨pa2, re2, ev2⟩) ∧
    (∀ (step : HProg → DState → RunRes) (ri hi : Nat) (h : HProg)
      (rest : List HProg) (pa : List (String × String)) (re : SlopResponse)
      (ev : List Ev) (pa2 : List (String × String)) (re2 : SlopResponse)
      (ev2 : List Ev) (b : String),
      step h ⟨pa, re, ev ++ [Ev.routeHandlerInvoked ri hi]⟩ =
        RunRes.ok ⟨pa2, re2, ev2⟩ → re2.body = some b →
      runChain step ri hi (h :: rest) ⟨pa, re, ev⟩ =
        RunRes.ok ⟨pa2, re2, ev2⟩) ∧
    (∀ (app : Slop) (fuel : Nat) (m p : String)
      (pa : List (String × String)) (re : SlopResponse) (ev : List Ev)
      (b : String),
      runMwChain (stepAt ⟨app, m, p⟩ fuel) p 0 app.middleware initSt =
        RunRes.ok ⟨pa, re, ev⟩ → re.body = some b →
      app.handleRequest fuel m p = some (⟨re.statusCode, re.headers, b⟩, ev)) := by
  refine ⟨runErrorScan_ref, fun e k res => rfl, errorScanRef_handled,
    ?_, ?_, ?_⟩
  · intro step path i0 mw rest pa re ev pa2 re2 ev2 b hm hs hb
    rw [runMwChain_cons_ok step path i0 mw rest pa re ev pa2 re2 ev2 hm hs,
      hb]
  · intro step ri hi h rest pa re ev pa2 re2 ev2 b hs hb
    rw [runChain_cons_ok step ri hi h rest pa re ev pa2 re2 ev2 hs, hb]
  · intro app fuel m p pa re ev b hrun hb
    rw [handleRequest_ok app fuel m p pa re ev hrun, hb]
    simp only [finalize]
    simp only [hb]

/-- C2 witness: the responded dispatch of `exApp1w` resolves with the
middleware's response. -/
theorem c2_witness :
    exApp1w.handleRequest 9 "GET" "/" =
      some (⟨200, [], "hi"⟩, [Ev.mwInvoked 0]) :=
  c2_theorem.2.2.2.2.2 exApp1w 9 "GET" "/" [] ⟨200, [], some "hi"⟩
    [Ev.mwInvoked 0] "hi" (by decide) rfl

/-- C3: an unhandled error is recovered at the dispatch boundary as the
generic internal-error response, in both unhandled cases the claim
names.  First, when no registered error handler's prefix filter matches
the request path (in particular when no error handler is registered at
all), any dispatch that completes after a handler signalled an error
yields exactly the generic internal-error response.  Second, when
matching error handlers exist and are invoked but no handler in the app
ever sets a non-null response body — so in particular no matching error
handler sets a body — the scan exhausts, the error is re-raised, and
any completed dispatch containing an error signal again yields exactly
the generic internal-error response.  That response carries the
server-error status 500 and the body "Internal Server Error"; the error
never escapes to the adapter boundary. -/
theorem c3_theorem :
    (∀ (app : Slop) (fuel : Nat) (m p : String) (resp : FinalResp)
      (tr : List Ev) (e : String),
      app.errorHandlers.all (fun eh => !(errMatches eh.path p)) = true →
      app.handleRequest fuel m p = some (resp, tr) →
      Ev.errSignaled e ∈ tr → resp = internalErrorResp) ∧
    (∀ (app : Slop) (fuel : Nat) (m p : String) (resp : FinalResp)
      (tr : List Ev) (e : String),
      app.middleware.all (fun x => neverBody x.handler) = true →
      app.routes.all (fun r => r.handlers.all neverBody) = true →
      app.errorHandlers.all (fun x => neverBody x.handler) = true →
      app.handleRequest fuel m p = some (resp, tr) →
      Ev.errSignaled e ∈ tr → resp = internalErrorResp) ∧
    internalErrorResp.status = 500 ∧
    internalErrorResp.body = "Internal Server Error" :=
  ⟨fun app fuel m p resp tr e hno hrun hsig =>
      err_unmatched_500 app fuel m p resp tr e hno hrun hsig,
    fun app fuel m p resp tr e hmw hrt heh hrun hsig =>
      err_neverBody_500 app fuel m p resp tr e hmw hrt heh hrun hsig,
    rfl, rfl⟩

/-- C3 witness: in `exApp3b` the matching error handler is invoked
(`errInvoked 0` is in the trace) and sets a status but never a body, and
the dispatch returns the generic 500 response; the first conjunct also
covers `exApp3`, where a middleware signals an error with zero error
handlers registered. -/
theorem c3_witness :
    ((⟨500, [], "Internal Server Error"⟩ : FinalResp) = internalErrorResp ∧
      Ev.errInvoked 0 "boom" ∈
        [Ev.mwInvoked 0, Ev.errSignaled "boom", Ev.errInvoked 0 "boom"] ∧
      errMatches "*" "/" = true) ∧
    (⟨500, [], "Internal Server Error"⟩ : FinalResp) = internalErrorResp := by
  refine ⟨⟨?_, by decide, by decide⟩, ?_⟩
  · exact c3_theorem.2.1 exApp3b 9 "GET" "/"
      ⟨500, [], "Internal Server Error"⟩
      [Ev.mwInvoked 0, Ev.errSignaled "boom", Ev.errInvoked 0 "boom"] "boom"
      (by decide) (by decide) (by decide) (by decide) (by decide)
  · exact c3_theorem.1 exApp3 9 "GET" "/" ⟨500, [], "Internal Server Error"⟩
      [Ev.mwInvoked 0, Ev.errSignaled "boom"] "boom" (by decide) (by decide)
      (by decide)

/-- C8 counterexample: in `exApp3` no middleware sets a response body
and no route is registered at all, yet the dispatch does not complete
normally with 404 — the middleware signals an error, which is re-thrown
unhandled, and `handleRequest` returns the generic 500 response. -/
theorem c8_counterexample :
    exApp3.handleRequest 9 "GET" "/" =
      some (internalErrorResp, [Ev.mwInvoked 0, Ev.errSignaled "boom"]) ∧
    exApp3.routes = [] ∧
    internalErrorResp ≠ notFoundResp := by
  decide

/-- C8 (amended): if no registered route has a matching method and
pattern and every middleware handler is benign — it never sets a
non-null body, never throws, and never signals an error — then the
dispatch completes normally: `handleRequest` returns the generic
404 Not Found response and no error is ever signalled. -/
theorem c8_theorem (app : Slop) (fuel : Nat) (m p : String)
    (resp : FinalResp) (tr : List Ev)
    (hmw : app.middleware.all (fun x => benignProg x.handler) = true)
    (hnr : app.routes.all (fun r => !(routeHit m p r)) = true)
    (hrun : app.handleRequest fuel m p = some (resp, tr)) :
    resp = notFoundResp ∧ ∀ e, Ev.errSignaled e ∉ tr := by
  have hfr : findRoute m p 0 app.routes = none :=
    (findRoute_none_iff m p app.routes).2 fun r hr => by
      simpa using List.all_eq_true.1 hnr r hr
  have hquiet := runMwChain_benign (stepAt ⟨app, m, p⟩ fuel) p
    (fun h st1 hbh hb1 =>
      runProgWith_benign (fun e' st' => nextFuel ⟨app, m, p⟩ fuel e' st')
        (fun st2 hb2 => nextFuel_noRoute_quiet ⟨app, m, p⟩ hfr fuel st2 hb2)
        h st1 hbh hb1)
    app.middleware 0 initSt hmw rfl
  cases hmwres : runMwChain (stepAt ⟨app, m, p⟩ fuel) p 0 app.middleware
      initSt with
  | ok st =>
    obtain ⟨pa, re, ev⟩ := st
    rw [hmwres] at hquiet
    have hb : re.body = none := hquiet.1
    rw [handleRequest_ok app fuel m p pa re ev hmwres, hb] at hrun
    cases fuel with
    | zero =>
      rw [nextFuel_zero ⟨app, m, p⟩ none ⟨pa, re, ev⟩] at hrun
      exact Option.noConfusion hrun
    | succ f =>
      rw [nextFuel_none_noRoute ⟨app, m, p⟩ f ⟨pa, re, ev⟩ hfr] at hrun
      simp only [finalize] at hrun
      simp only [hb] at hrun
      simp only [Option.some.injEq, Prod.mk.injEq] at hrun
      obtain ⟨h1, h2⟩ := hrun
      subst h2
      refine ⟨h1.symm, fun e he => ?_⟩
      have hx := hquiet.2 e he
      simp [initSt] at hx
  | thrown e2 st =>
    rw [hmwres] at hquiet
    exact hquiet.elim
  | out st =>
    rw [handleRequest_abort app fuel m p _ hmwres (by intro s; simp)] at hrun
    exact Option.noConfusion hrun

/-- C8 witness: a header-setting, falling-through middleware and no
matching route yield the 404 response with no error signal. -/
theorem c8_witness :
    (⟨404, [], "Not Found"⟩ : FinalResp) = notFoundResp ∧
    Ev.errSignaled "boom" ∉ [Ev.mwInvoked 0] := by
  have h := c8_theorem exApp8 9 "GET" "/" ⟨404, [], "Not Found"⟩
    [Ev.mwInvoked 0] (by decide) (by decide) (by decide)
  exact ⟨h.1, h.2 "boom"⟩

/-- C10 counterexample: in `exApp10c` the middleware runs, sets a
status code, and never sets the body — yet `handleRequest` returns the
generic 500 response, not 404, because the handler throws.  The claim's
unconditional "returns the generic 404" fails for dispatches whose
handlers throw or signal errors. -/
theorem c10_counterexample :
    exApp10c.handleRequest 9 "GET" "/" =
      some (internalErrorResp, [Ev.mwInvoked 0]) ∧
    internalErrorResp ≠ notFoundResp := by
  decide

/-- C10 (amended): if every middleware and route handler is benign — it
never sets a non-null body, never throws, and never signals an error —
then no matter which status codes handlers set via `status()`, the
dispatch returns the generic 404 Not Found response: a status code set
without a body never reaches the final response. -/
theorem c10_theorem (app : Slop) (fuel : Nat) (m p : String)
    (resp : FinalResp) (tr : List Ev)
    (hmw : app.middleware.all (fun x => benignProg x.handler) = true)
    (hrt : app.routes.all (fun r => r.handlers.all benignProg) = true)
    (hrun : app.handleRequest fuel m p = some (resp, tr)) :
    resp = notFoundResp := by
  have Hroutes : ∀ r ∈ app.routes, r.handlers.all benignProg = true :=
    fun r hr => List.all_eq_true.1 hrt r hr
  have hquiet := runMwChain_benign (stepAt ⟨app, m, p⟩ fuel) p
    (fun h st1 hbh hb1 =>
      runProgWith_benign (fun e' st' => nextFuel ⟨app, m, p⟩ fuel e' st')
        (fun st2 hb2 => nextFuel_quiet ⟨app, m, p⟩ Hroutes fuel st2 hb2)
        h st1 hbh hb1)
    app.middleware 0 initSt hmw rfl
  cases hmwres : runMwChain (stepAt ⟨app, m, p⟩ fuel) p 0 app.middleware
      initSt with
  | ok st =>
    obtain ⟨pa, re, ev⟩ := st
    rw [hmwres] at hquiet
    have hb : re.body = none := hquiet.1
    rw [handleRequest_ok app fuel m p pa re ev hmwres, hb] at hrun
    have hq2 := nextFuel_quiet ⟨app, m, p⟩ Hroutes fuel ⟨pa, re, ev⟩ hb
    cases hnf : nextFuel ⟨app, m, p⟩ fuel none ⟨pa, re, ev⟩ with
    | ok st' =>
      rw [hnf] at hrun hq2
      obtain ⟨pa2, re2, ev2⟩ := st'
      have hb2 : re2.body = none := hq2.1
      simp only [finalize] at hrun
      simp only [hb2] at hrun
      simp only [Option.some.injEq, Prod.mk.injEq] at hrun
      exact hrun.1.symm
    | thrown e2 st' =>
      rw [hnf] at hq2
      exact hq2.elim
    | out st' =>
      rw [hnf] at hrun
      exact Option.noConfusion hrun
  | thrown e2 st =>
    rw [hmwres] at hquiet
    exact hquiet.elim
  | out st =>
    rw [handleRequest_abort app fuel m p _ hmwres (by intro s; simp)] at hrun
    exact Option.noConfusion hrun

/-- C10 witness: handlers set status codes 418 and 201 but no body, and
the dispatch still returns the generic 404 response. -/
theorem c10_witness : (⟨404, [], "Not Found"⟩ : FinalResp) = notFoundResp :=
  c10_theorem exApp10 9 "GET" "/" ⟨404, [], "Not Found"⟩
    [Ev.mwInvoked 0, Ev.routeMatched 0 [], Ev.routeHandlerInvoked 0 0]
    (by decide) (by decide) (by decide)
